import Mathlib

/-! Bolån crawler: extraction engine of the Danske Bank site crawler.

A shallow embedding of `internal/app/crawler/danske_bank.go` and
`internal/pkg/model/interest_set.go`, followed by theorems about it.

Conventions of the embedding.

* A Go `string` is a `List Char` (the list of its runes); literals are written
  `"...".toList`.
* A Go function returning `(value, error)` returns a pair `value × Option Error`,
  `none` being the `nil` error, so that what is returned next to an error can be
  stated.
* A run-time panic (index out of range, nil dereference) is the `error` side of
  `Except Panic`.
* A `float32` is represented by the rational number it is rounded from; rounding
  to 24 bits is not modelled.  No statement below depends on it: values are only
  compared when they come from the same literal or the same token.
-/

namespace Bolan

/-! ## Strings -/

/-- Go strings, as lists of runes. -/
abbrev Str := List Char

/-- The class `\s` of Go regular expressions (RE2): tab, newline, form feed,
carriage return and space.  It is ASCII only: U+00A0 and U+000B are not in it. -/
def isRegexpSpace (c : Char) : Bool :=
  c = Char.ofNat 0x09 || c = Char.ofNat 0x0A || c = Char.ofNat 0x0C ||
  c = Char.ofNat 0x0D || c = ' '

/-- The loop of `ReplaceAllString` for the expression `\s+`: `inRun` tells whether
the previous rune belonged to the match being replaced. -/
def replaceSpaceRunsFrom (repl : Str) : Bool → Str → Str
  | _, [] => []
  | inRun, c :: cs =>
    if isRegexpSpace c then
      if inRun then replaceSpaceRunsFrom repl true cs
      else repl ++ replaceSpaceRunsFrom repl true cs
    else c :: replaceSpaceRunsFrom repl false cs

/-- Models `regexp.MustCompile("\\s+").ReplaceAllString(src, repl)` for a
replacement without `$`: every maximal run of `\s` runes becomes `repl`. -/
def regexpSpacesReplaceAllString (src repl : Str) : Str :=
  replaceSpaceRunsFrom repl false src

/-- Models `strings.ReplaceAll(s, old, new)` for a one-rune `old`. -/
def ReplaceAll (s : Str) (old : Char) (new : Str) : Str :=
  s.flatMap fun c => if c = old then new else [c]

/-- Models `unicode.IsSpace`: the Latin-1 spaces and the other runes of the
Unicode White_Space property. -/
def unicodeIsSpace (c : Char) : Bool :=
  let n := c.toNat
  (0x09 ≤ n && n ≤ 0x0D) || n = 0x20 || n = 0x85 || n = 0xA0 || n = 0x1680 ||
  (0x2000 ≤ n && n ≤ 0x200A) || n = 0x2028 || n = 0x2029 || n = 0x202F ||
  n = 0x205F || n = 0x3000

/-- Models `strings.TrimSpace`. -/
def TrimSpace (s : Str) : Str :=
  (s.dropWhile unicodeIsSpace).rdropWhile unicodeIsSpace

/-- Models `strings.Trim(s, cutset)` for a one-rune cutset. -/
def Trim (s : Str) (cut : Char) : Str :=
  (s.dropWhile (· = cut)).rdropWhile (· = cut)

/-- Models `strings.Split(s, sep)` for a one-rune separator.  The result of
`Split` on the empty string is one empty part. -/
def Split (s : Str) (sep : Char) : List Str :=
  match s with
  | [] => [[]]
  | c :: cs =>
    if c = sep then [] :: Split cs sep
    else
      match Split cs sep with
      | [] => [[c]]
      | p :: ps => (c :: p) :: ps

/-- Models `strings.Contains(s, substr)`: `substr` starts at the head of `s`, or
further in. -/
def Contains (s substr : Str) : Bool :=
  match s with
  | [] => substr.isEmpty
  | c :: cs => substr.isPrefixOf (c :: cs) || Contains cs substr

/-! ## Data model (`internal/pkg/model/interest_set.go`) -/

abbrev Term := Str
abbrev Type_ := Str
abbrev Bank := Str
abbrev Float32 := ℚ
/-- A `time.Time`, as an abstract instant. -/
abbrev Time := Nat
/-- A `civil.Date`, as an abstract day number. -/
abbrev Date := Nat

def Term3months : Term := "3m".toList
def Term1year : Term := "1y".toList
def Term2years : Term := "2y".toList
def Term3years : Term := "3y".toList
def Term4years : Term := "4y".toList
def Term5years : Term := "5y".toList
def Term6years : Term := "6y".toList
def Term7years : Term := "7y".toList
def Term8years : Term := "8y".toList
def Term9years : Term := "9y".toList
def Term10years : Term := "10y".toList

def TypeListRate : Type_ := "list".toList
def TypeAvgRate : Type_ := "average".toList
def TypeRatioDiscounted : Type_ := "ratioDiscounted".toList

structure RatioDiscountBoundary where
  MinRatio : Float32
  MaxRatio : Float32
deriving DecidableEq

structure InterestSet where
  Bank : Bank
  NominalRate : Float32
  EffectiveRate : Float32
  Term : Term
  Type_ : Type_
  RatioDiscountBoundaries : Option RatioDiscountBoundary
  UnionDiscount : Bool
  ChangedOn : Date
  LastCrawledAt : Time
deriving DecidableEq

/-! ## Errors and panics -/

/-- The `error` values the crawler builds with `fmt.Errorf`, by the place that
builds them; `wrap` is a `%w` wrapping with the text put in front. -/
inductive Error where
  | parseTermFailed (title cleanedTitle : Str)
  | parseDiscountBoundaryFailed (cat cleanedCat : Str)
  | parseNominalFloatFailed (nominalStr cell sanitized : Str)
  | parseEffectiveFloatFailed (effectiveStr cell sanitized : Str)
  | tableStructureChanged
  | external (what : String)
  | wrap (context : String) (inner : Error)
deriving DecidableEq

/-- Run-time panics of the Go runtime. -/
inductive Panic where
  | indexOutOfRange (index length : Nat)
  | nilDereference
deriving DecidableEq

/-! ## `parseTerm` and `parseDiscountBoundaries` -/

def DanskeBankName : Bank := "Danske Bank".toList

def parseTerm (title : Str) : Term × Option Error :=
  let cleanedTitle := regexpSpacesReplaceAllString title []
  if cleanedTitle = "3mån".toList then (Term3months, none)
  else if cleanedTitle = "1år".toList then (Term1year, none)
  else if cleanedTitle = "2år".toList then (Term2years, none)
  else if cleanedTitle = "3år".toList then (Term3years, none)
  else if cleanedTitle = "4år".toList then (Term4years, none)
  else if cleanedTitle = "5år".toList then (Term5years, none)
  else if cleanedTitle = "6år".toList then (Term6years, none)
  else if cleanedTitle = "7år".toList then (Term7years, none)
  else if cleanedTitle = "8år".toList then (Term8years, none)
  else if cleanedTitle = "9år".toList then (Term9years, none)
  else if cleanedTitle = "10år".toList then (Term10years, none)
  else ([], some (.parseTermFailed title cleanedTitle))

/-- The body of the `for _, cat := range fields` loop of
`parseDiscountBoundaries`; `out` is the slice built so far. -/
def parseDiscountBoundariesLoop :
    List Str → List RatioDiscountBoundary → List RatioDiscountBoundary × Option Error
  | [], out => (out, none)
  | cat :: rest, out =>
    let cleanedCat := regexpSpacesReplaceAllString cat []
    if cleanedCat = "60%".toList then
      parseDiscountBoundariesLoop rest (out ++ [{ MinRatio := 0, MaxRatio := 0.6 }])
    else if cleanedCat = "61-74%".toList then
      parseDiscountBoundariesLoop rest (out ++ [{ MinRatio := 0.6, MaxRatio := 0.75 }])
    else if cleanedCat = "75-79%".toList then
      parseDiscountBoundariesLoop rest (out ++ [{ MinRatio := 0.75, MaxRatio := 0.8 }])
    else if cleanedCat = "80-85%".toList then
      parseDiscountBoundariesLoop rest (out ++ [{ MinRatio := 0.8, MaxRatio := 0.85 }])
    else ([], some (.parseDiscountBoundaryFailed cat cleanedCat))

def parseDiscountBoundaries (fields : List Str) :
    List RatioDiscountBoundary × Option Error :=
  parseDiscountBoundariesLoop fields []

/-! ## Cell texts -/

/-- Value of a decimal digit. -/
def digitValue (c : Char) : Option Nat :=
  if '0' ≤ c ∧ c ≤ '9' then some (c.toNat - '0'.toNat) else none

/-- Reads the digits at the head of `s`: the number `acc` continued by them, how
many were read, and what follows them. -/
def readDigits : Str → Nat → Nat → Nat × Nat × Str
  | [], acc, count => (acc, count, [])
  | c :: cs, acc, count =>
    match digitValue c with
    | some d => readDigits cs (10 * acc + d) (count + 1)
    | none => (acc, count, c :: cs)

/-- The sign in front of a number, and what follows it. -/
def readSign : Str → Bool × Str
  | '-' :: rest => (true, rest)
  | '+' :: rest => (false, rest)
  | s => (false, s)

/-- Models `strconv.ParseFloat(s, 32)` followed by the conversion to `float32`, on
plain decimal tokens: an optional sign, digits, an optional point and digits, one
digit at least.  `none` is a returned error.  The other spellings `ParseFloat`
accepts (exponents, hexadecimal, infinities, NaN) are not in this model, which
serves as an instance of the `ParseFloat` argument of the functions below. -/
def parseDecimal (s : Str) : Option Float32 :=
  let (neg, s1) := readSign s
  let (whole, n1, s2) := readDigits s1 0 0
  let sign : Float32 := if neg then -1 else 1
  match s2 with
  | [] => if n1 = 0 then none else some (sign * whole)
  | '.' :: s3 =>
    let (mantissa, n2, s4) := readDigits s3 whole 0
    if s4 = [] ∧ 0 < n1 + n2 then some (sign * mantissa / 10 ^ n2) else none
  | _ => none

/-- The function `parseInterestRatesFromCellText`.  `ParseFloat s` stands for
`strconv.ParseFloat(s, 32)` converted to `float32`, `none` when it returns an
error. -/
def parseInterestRatesFromCellText (ParseFloat : Str → Option Float32) (cell : Str) :
    Except Panic (Float32 × Float32 × Option Error) :=
  let sanitized := regexpSpacesReplaceAllString cell " ".toList
  let sanitized := ReplaceAll sanitized '%' []
  let sanitized := ReplaceAll sanitized '*' []
  let sanitized := ReplaceAll sanitized '(' []
  let sanitized := ReplaceAll sanitized ')' []
  let sanitized := TrimSpace sanitized
  let parts := Split sanitized ' '
  match parts with
  | [] => .error (.indexOutOfRange 0 0)
  | part0 :: _ =>
    let nominalStr := ReplaceAll part0 ',' ".".toList
    match ParseFloat nominalStr with
    | none => .ok (0, 0, some (.parseNominalFloatFailed nominalStr cell sanitized))
    | some nominal64 =>
      let effectiveStr := ReplaceAll part0 ',' ".".toList
      match ParseFloat effectiveStr with
      | none => .ok (0, 0, some (.parseEffectiveFloatFailed effectiveStr cell sanitized))
      | some effective64 => .ok (nominal64, effective64, none)

/-! ## HTML nodes and queries -/

/-- The node types of `golang.org/x/net/html`. -/
inductive NodeType where
  | ErrorNode | TextNode | DocumentNode | ElementNode | CommentNode | DoctypeNode
deriving DecidableEq

/-- An `html.Node`: its type, its `Data` (the tag name of an element, the text of
a text node) and its children from `FirstChild` along `NextSibling`. -/
inductive Node where
  | mk (Type_ : NodeType) (Data : Str) (children : List Node)

namespace Node

def Type_ : Node → NodeType
  | mk t _ _ => t

def Data : Node → Str
  | mk _ d _ => d

def children : Node → List Node
  | mk _ _ cs => cs

end Node

/-- A `*html.Node` that is not nil, for the code that follows `Parent`: the node
and its ancestors, the nearest first. -/
structure NodePtr where
  node : Node
  ancestors : List Node

/-- The field `Parent` of a `*html.Node`; reading it through a nil pointer
panics. -/
def Parent : Option NodePtr → Except Panic (Option NodePtr)
  | none => .error .nilDereference
  | some ⟨_, []⟩ => .ok none
  | some ⟨_, parent :: above⟩ => .ok (some ⟨parent, above⟩)

/-- Name test of an XPath step: an element node called `tag`. -/
def isElementNamed (tag : Str) (n : Node) : Bool :=
  n.Type_ = .ElementNode && n.Data = tag

mutual
/-- A node and everything under it, in document order. -/
def descendantsOrSelf : Node → List Node
  | .mk t d cs => .mk t d cs :: descendantsOfAll cs
/-- The nodes of a list of siblings and everything under them. -/
def descendantsOfAll : List Node → List Node
  | [] => []
  | c :: cs => descendantsOrSelf c ++ descendantsOfAll cs
end

/-- Models `htmlquery.QueryAll(top, "//" + tag)`: the elements called `tag` below
`top`, in document order.  The expression is a constant that compiles, so the
error is nil. -/
def QueryAllDescendants (top : Node) (tag : Str) : List Node × Option Error :=
  ((descendantsOfAll top.children).filter (isElementNamed tag), none)

mutual
/-- Pointers to a node and everything under it, in document order. -/
def pointersOrSelf (above : List Node) : Node → List NodePtr
  | .mk t d cs => ⟨.mk t d cs, above⟩ :: pointersOfAll (.mk t d cs :: above) cs
/-- Pointers to the nodes of a list of siblings and everything under them. -/
def pointersOfAll (above : List Node) : List Node → List NodePtr
  | [] => []
  | c :: cs => pointersOrSelf above c ++ pointersOfAll above cs
end

/-- The step `/tag` of an XPath expression: the children called `tag`. -/
def childStep (tag : Str) (p : NodePtr) : List NodePtr :=
  (p.node.children.filter (isElementNamed tag)).map fun c => ⟨c, p.node :: p.ancestors⟩

/-- The predicate `contains(text(), phrase)`: the first text child holds the
phrase. -/
def firstTextContains (phrase : Str) (n : Node) : Bool :=
  match n.children.find? (fun c => c.Type_ = .TextNode) with
  | none => false
  | some t => Contains t.Data phrase

/-- Models `htmlquery.QueryAll(doc,
"//table/tbody/tr/td/b[contains(text(), 'Belåningsgrad')]]")`: for every `table`
element below `doc`, the `b` children of `td` children of `tr` children of `tbody`
children whose first text child holds the phrase.  The parser of the library stops
at the closing bracket left over at the end of the expression, so the error is
nil. -/
def QueryAllLocator (doc : Node) : List NodePtr × Option Error :=
  ((((((pointersOfAll [doc] doc.children).filter fun p => isElementNamed "table".toList p.node).flatMap
      (childStep "tbody".toList)).flatMap (childStep "tr".toList)).flatMap
      (childStep "td".toList)).flatMap fun td =>
        (childStep "b".toList td).filter fun b =>
          firstTextContains "Belåningsgrad".toList b.node,
   none)

/-! ## Rows -/

structure rowStruct where
  title : Str
  fields : List Str
deriving DecidableEq

/-- The sanitising at the end of `getAllTextFromNode`. -/
def sanitizeText (out : Str) : Str :=
  let out := ReplaceAll out (Char.ofNat 0xA0) " ".toList
  let out := regexpSpacesReplaceAllString out " ".toList
  Trim out ' '

mutual
/-- The function `getAllTextFromNode` on a node that is not nil. -/
def getAllTextFromNonNil : Node → Str
  | .mk t d cs =>
    sanitizeText ((if t = .TextNode then " ".toList ++ d else []) ++ getAllTextFromChildren cs)
/-- The loop over the children in `getAllTextFromNode`: what it appends to `out`. -/
def getAllTextFromChildren : List Node → Str
  | [] => []
  | c :: cs => " ".toList ++ getAllTextFromNonNil c ++ getAllTextFromChildren cs
end

def getAllTextFromNode : Option Node → Str
  | none => sanitizeText []
  | some node => getAllTextFromNonNil node

/-- The loop of `parseRows`; `rowStructs` is the slice built so far. -/
def parseRowsLoop : List Node → List rowStruct → Except Panic (List rowStruct × Option Error)
  | [], rowStructs => .ok (rowStructs, none)
  | rowNode :: rest, rowStructs =>
    match QueryAllDescendants rowNode "td".toList with
    | (_, some err) => .ok ([], some (.wrap "failed to xpath cells" err))
    | (cells, none) =>
      match cells with
      | [] => .error (.indexOutOfRange 0 0)
      | cell0 :: cells1 =>
        let titleCellText := getAllTextFromNode (some cell0)
        let fieldTexts := cells1.map fun cell => getAllTextFromNode (some cell)
        parseRowsLoop rest (rowStructs ++ [{ title := titleCellText, fields := fieldTexts }])

def parseRows (rows : List Node) : Except Panic (List rowStruct × Option Error) :=
  parseRowsLoop rows []

/-! ## Tables -/

/-- The loop over the cells of one row in `parseTable`.  It ends with the slice
`sets` grown by the records of the row, or with the error `parseTable` returns, or
with a panic.  `today k` is `civil.DateOf(time.Now())` as read when the record of
index `k` is built. -/
def parseTableCells (ParseFloat : Str → Option Float32) (today : Nat → Date)
    (crawlTime : Time) (discountBoundaries : List RatioDiscountBoundary) (term : Term) :
    Nat → List Str → List InterestSet → Except Panic (Except Error (List InterestSet))
  | _, [], sets => .ok (.ok sets)
  | i, cell :: rest, sets =>
    match parseInterestRatesFromCellText ParseFloat cell with
    | .error p => .error p
    | .ok (_, _, some err) =>
      .ok (.error (.wrap "failed to parse interest rates for row" err))
    | .ok (nominalRate, effectiveRate, none) =>
      match discountBoundaries.get? i with
      | none => .error (.indexOutOfRange i discountBoundaries.length)
      | some boundary =>
        parseTableCells ParseFloat today crawlTime discountBoundaries term (i + 1) rest
          (sets ++ [{ Bank := DanskeBankName
                      NominalRate := nominalRate
                      EffectiveRate := effectiveRate
                      Term := term
                      Type_ := TypeRatioDiscounted
                      RatioDiscountBoundaries := some boundary
                      UnionDiscount := false
                      ChangedOn := today sets.length
                      LastCrawledAt := crawlTime }])

/-- The loop over `rows[1:]` in `parseTable`. -/
def parseTableRows (ParseFloat : Str → Option Float32) (today : Nat → Date)
    (crawlTime : Time) (discountBoundaries : List RatioDiscountBoundary) :
    List rowStruct → List InterestSet → Except Panic (Except Error (List InterestSet))
  | [], sets => .ok (.ok sets)
  | row :: rest, sets =>
    match parseTerm row.title with
    | (_, some err) => .ok (.error (.wrap "failed to parse term for row" err))
    | (term, none) =>
      match parseTableCells ParseFloat today crawlTime discountBoundaries term 0 row.fields sets with
      | .error p => .error p
      | .ok (.error err) => .ok (.error err)
      | .ok (.ok sets) =>
        parseTableRows ParseFloat today crawlTime discountBoundaries rest sets

/-- The method `DanskeBankCrawler.parseTable`, on a table that is not nil. -/
def parseTable (ParseFloat : Str → Option Float32) (today : Nat → Date) (table : Node)
    (crawlTime : Time) : Except Panic (List InterestSet × Option Error) :=
  match QueryAllDescendants table "tr".toList with
  | (_, some err) => .ok ([], some (.wrap "failed to xpath rows" err))
  | (rowNodes, none) =>
    match parseRows rowNodes with
    | .error p => .error p
    | .ok (_, some err) => .ok ([], some (.wrap "failed to parse rows" err))
    | .ok (rows, none) =>
      match rows with
      | [] => .error (.indexOutOfRange 0 0)
      | row0 :: rows1 =>
        if !Contains row0.title "Belåningsgrad".toList then
          .ok ([], some .tableStructureChanged)
        else
          match parseDiscountBoundaries row0.fields with
          | (_, some err) =>
            .ok ([], some (.wrap "failed to extract categories from first rowStruct" err))
          | (discountBoundaries, none) =>
            match parseTableRows ParseFloat today crawlTime discountBoundaries rows1 [] with
            | .error p => .error p
            | .ok (.error err) => .ok ([], some err)
            | .ok (.ok sets) => .ok (sets, none)

/-! ## The crawler -/

/-- The expression `n.Parent.Parent.Parent.Parent`. -/
def Parent4 (n : NodePtr) : Except Panic (Option NodePtr) := do
  let p1 ← Parent (some n)
  let p2 ← Parent p1
  let p3 ← Parent p2
  Parent p3

/-- The call `d.parseTable(n.Parent.Parent.Parent.Parent, crawlTime)`; a nil
table makes the query for the rows panic. -/
def parseTableOfMatch (ParseFloat : Str → Option Float32) (today : Nat → Date)
    (n : NodePtr) (crawlTime : Time) : Except Panic (List InterestSet × Option Error) := do
  match ← Parent4 n with
  | none => .error .nilDereference
  | some table => parseTable ParseFloat today table.node crawlTime

/-- The method `DanskeBankCrawler.Crawl`: the records it sends on the channel, in
the order it sends them.  `loaded` is what `htmlquery.LoadURL` returns and
`crawlTime` the first reading of `time.Now()`. -/
def Crawl (ParseFloat : Str → Option Float32) (today : Nat → Date) (crawlTime : Time)
    (loaded : Except Error Node) : Except Panic (List InterestSet) :=
  match loaded with
  | .error _ => .ok []
  | .ok doc =>
    match QueryAllLocator doc with
    | (_, some _) => .ok []
    | (nodes, none) =>
      if nodes.length ≠ 2 then .ok []
      else
        match nodes with
        | [node0, node1] =>
          match parseTableOfMatch ParseFloat today node0 crawlTime with
          | .error p => .error p
          | .ok (interestSets, _) =>
            match parseTableOfMatch ParseFloat (fun k => today (interestSets.length + k))
                node1 crawlTime with
            | .error p => .error p
            | .ok (unionOfferTable, _) => .ok (interestSets ++ unionOfferTable)
        | _ => .ok []

/-! ## Reference tables of the specification -/

/-- A string with every whitespace rune (`\s`) removed. -/
def removeWhitespace (s : Str) : Str :=
  s.filter fun c => !isRegexpSpace c

/-- The term table of the specification: the eleven labels and their terms. -/
def termTable : List (Str × Term) :=
  [("3mån".toList, Term3months), ("1år".toList, Term1year), ("2år".toList, Term2years),
   ("3år".toList, Term3years), ("4år".toList, Term4years), ("5år".toList, Term5years),
   ("6år".toList, Term6years), ("7år".toList, Term7years), ("8år".toList, Term8years),
   ("9år".toList, Term9years), ("10år".toList, Term10years)]

/-- Lookup of a key in an association list, by decidable equality. -/
def lookupLabel {β : Type} (key : Str) : List (Str × β) → Option β
  | [] => none
  | (k, v) :: rest => if key = k then some v else lookupLabel key rest

/-- The boundary table of the specification: the four canonical labels and the
intervals `[0, .60)`, `[.60, .75)`, `[.75, .80)`, `[.80, .85)`. -/
def boundaryTable : List (Str × RatioDiscountBoundary) :=
  [("60%".toList, { MinRatio := 0, MaxRatio := 0.60 }),
   ("61-74%".toList, { MinRatio := 0.60, MaxRatio := 0.75 }),
   ("75-79%".toList, { MinRatio := 0.75, MaxRatio := 0.80 }),
   ("80-85%".toList, { MinRatio := 0.80, MaxRatio := 0.85 })]

/-- The interval of a header field, when its label is canonical. -/
def boundaryOfField (field : Str) : Option RatioDiscountBoundary :=
  lookupLabel (removeWhitespace field) boundaryTable

/-! ## Cell texts that differ by whitespace and decoration -/

/-- The value of `sanitized` in `parseInterestRatesFromCellText` when it is
split. -/
def sanitizedCellText (cell : Str) : Str :=
  TrimSpace (ReplaceAll (ReplaceAll (ReplaceAll (ReplaceAll
    (regexpSpacesReplaceAllString cell " ".toList) '%' []) '*' []) '(' []) ')' [])

/-- What a call of `parseInterestRatesFromCellText` gives, the text of the error
left out: a panic, or the two rates and whether an error is returned. -/
def cellOutcome (r : Except Panic (Float32 × Float32 × Option Error)) :
    Except Panic (Float32 × Float32 × Bool) :=
  match r with
  | .error p => .error p
  | .ok (nominal, effective, err) => .ok (nominal, effective, err.isSome)

/-- Two cell texts differ only by whitespace and decoration: a space repeated, a
space in front or at the end, parentheses or asterisks put around a part of the
text, and, when `nbsp` is set, a non-breaking space U+00A0 in the place of a
space; in either direction, any number of times. -/
inductive CellTextVariant (nbsp : Bool) : Str → Str → Prop where
  | repeatedSpace (a b : Str) : CellTextVariant nbsp (a ++ ' ' :: b) (a ++ ' ' :: ' ' :: b)
  | nonBreakingSpace (a b : Str) :
      nbsp = true → CellTextVariant nbsp (a ++ ' ' :: b) (a ++ Char.ofNat 0xA0 :: b)
  | leadingSpace (s : Str) : CellTextVariant nbsp s (' ' :: s)
  | trailingSpace (s : Str) : CellTextVariant nbsp s (s ++ [' '])
  | parentheses (a s b : Str) : CellTextVariant nbsp (a ++ s ++ b) (a ++ '(' :: s ++ ')' :: b)
  | asterisks (a s b : Str) : CellTextVariant nbsp (a ++ s ++ b) (a ++ '*' :: s ++ '*' :: b)
  | refl (s : Str) : CellTextVariant nbsp s s
  | symm {s t : Str} : CellTextVariant nbsp s t → CellTextVariant nbsp t s
  | trans {s t u : Str} :
      CellTextVariant nbsp s t → CellTextVariant nbsp t u → CellTextVariant nbsp s u

/-- The four `strings.ReplaceAll` calls of `parseInterestRatesFromCellText`. -/
def removeDecoration (s : Str) : Str :=
  ReplaceAll (ReplaceAll (ReplaceAll (ReplaceAll s '%' []) '*' []) '(' []) ')' []

/-- Whether the rune before the end of `a` is a `\s` rune, `b` when `a` is empty. -/
def runState : Bool → Str → Bool
  | b, [] => b
  | _, c :: cs => runState (isRegexpSpace c) cs

/-- A text with one more space than another, at an end or next to a space. -/
inductive Padded : Str → Str → Prop where
  | same (y : Str) : Padded y y
  | lead (y : Str) : Padded y (' ' :: y)
  | trail (y : Str) : Padded y (y ++ [' '])
  | double (u v : Str) : Padded (u ++ ' ' :: v) (u ++ ' ' :: ' ' :: v)

/-- The first part of the split of the trimmed text. -/
def firstPart (y : Str) : Str :=
  (TrimSpace y).takeWhile fun c => !decide (c = ' ')

/-- The text before trimming: runs replaced, decoration removed. -/
def untrimmed (cell : Str) : Str :=
  removeDecoration (regexpSpacesReplaceAllString cell " ".toList)

/-- Whether the outcome is a returned error (or a panic). -/
def outcomeFailed : Except Panic (Float32 × Float32 × Bool) → Bool
  | .ok (_, _, failed) => failed
  | .error _ => true

/-! ## Well-formed rows -/

/-- A cell text on which `parseInterestRatesFromCellText` returns rates. -/
abbrev parseableCell (ParseFloat : Str → Option Float32) (cell : Str) : Prop :=
  outcomeFailed (cellOutcome (parseInterestRatesFromCellText ParseFloat cell)) = false

/-- A data row whose title is a label of the term table, whose cells all give
rates, and which has no more cells than there are boundaries. -/
abbrev wellFormedRow (ParseFloat : Str → Option Float32) (columns : Nat) (row : rowStruct) : Prop :=
  (lookupLabel (removeWhitespace row.title) termTable).isSome ∧
    (∀ c ∈ row.fields, parseableCell ParseFloat c) ∧ row.fields.length ≤ columns

/-! ## Example documents -/

/-- An element node. -/
def element (tag : String) (children : List Node) : Node :=
  .mk .ElementNode tag.toList children

/-- A text node. -/
def textNode (data : String) : Node :=
  .mk .TextNode data.toList []

/-- A header row: the title cell and the four canonical labels. -/
def exampleHeaderRow : Node :=
  element "tr" [element "td" [element "b" [textNode "Belåningsgrad"]],
    element "td" [textNode "60 %"], element "td" [textNode "61-74 %"],
    element "td" [textNode "75-79 %"], element "td" [textNode "80-85 %"]]

/-- A table with the header row and two data rows of four cells. -/
def exampleTable : Node :=
  element "table" [element "tbody" [exampleHeaderRow,
    element "tr" [element "td" [textNode "3 mån"], element "td" [textNode "3,45 % (3,51 %)"],
      element "td" [textNode "3,55 %"], element "td" [textNode "3,65 %"],
      element "td" [textNode "3,75 %*"]],
    element "tr" [element "td" [textNode "1 år"], element "td" [textNode "3,05 %"],
      element "td" [textNode "3,15 %"], element "td" [textNode "3,25 %"],
      element "td" [textNode "3,35 %"]]]]

/-- A data row: the title cell and the rate cells. -/
def exampleDataRow (title : String) (cells : List String) : Node :=
  element "tr" (element "td" [textNode title] :: cells.map fun c => element "td" [textNode c])

/-- A table whose data row has three cells under four boundary labels. -/
def shortRowTable : Node :=
  element "table" [element "tbody" [exampleHeaderRow,
    exampleDataRow "3 mån" ["3,45 %", "3,55 %", "3,65 %"]]]

/-- A table whose data row has five cells under four boundary labels. -/
def longRowTable : Node :=
  element "table" [element "tbody" [exampleHeaderRow,
    exampleDataRow "3 mån" ["3,45 %", "3,55 %", "3,65 %", "3,75 %", "3,85 %"]]]

/-- A table with a row of heading cells (`th`) only, between the header row and a
data row. -/
def headingRowTable : Node :=
  element "table" [element "tbody" [exampleHeaderRow,
    element "tr" [element "th" [textNode "Bindningstid"]],
    exampleDataRow "3 mån" ["3,45 %", "3,55 %", "3,65 %", "3,75 %"]]]

/-- A table without any row. -/
def emptyTable : Node :=
  element "table" [element "tbody" []]

/-- A table whose last cell of the last row holds no number. -/
def unparseableCellTable : Node :=
  element "table" [element "tbody" [exampleHeaderRow,
    exampleDataRow "3 mån" ["3,45 %", "3,55 %", "3,65 %", "3,75 %"],
    exampleDataRow "1 år" ["3,05 %", "3,15 %", "3,25 %", "-"]]]

/-- A table whose row 0 has another title than expected, with canonical labels and
a data row of four cells that parse. -/
def otherTitleTable : Node :=
  element "table" [element "tbody" [
    exampleDataRow "Bindningstid" ["60 %", "61-74 %", "75-79 %", "80-85 %"],
    exampleDataRow "3 mån" ["3,45 %", "3,55 %", "3,65 %", "3,75 %"]]]

/-- A table whose row 0 has another title than expected; the row with the title
"Belåningsgrad", by which the table is located, comes second, and a row of heading
cells only comes third. -/
def untitledTable : Node :=
  element "table" [element "tbody" [
    exampleDataRow "Bindningstid" ["60 %", "61-74 %", "75-79 %", "80-85 %"],
    exampleHeaderRow,
    element "tr" [element "th" [textNode "Rörlig ränta"]],
    exampleDataRow "3 mån" ["3,45 %", "3,55 %", "3,65 %", "3,75 %"]]]

/-- A document with that table and the example table: two located tables. -/
def untitledDocument : Node :=
  .mk .DocumentNode [] [element "html" [element "body" [untitledTable, exampleTable]]]

/-- How many records a call of `parseTable` returns and whether it returns an
error; `none` when it panics. -/
def returnedCount (r : Except Panic (List InterestSet × Option Error)) : Option (Nat × Bool) :=
  match r with
  | .error _ => none
  | .ok (sets, err) => some (sets.length, err.isSome)

/-- A table whose header row holds a label that is not canonical. -/
def unknownLabelTable : Node :=
  element "table" [element "tbody" [
    element "tr" [element "td" [element "b" [textNode "Belåningsgrad"]],
      element "td" [textNode "60 %"], element "td" [textNode "86-90 %"]],
    exampleDataRow "3 mån" ["3,45 %", "3,55 %"]]]

/-- A document with one table. -/
def oneTableDocument : Node :=
  .mk .DocumentNode [] [element "html" [element "body" [exampleTable]]]

/-- A document with two tables, the first with a label that is not canonical. -/
def twoTableDocument : Node :=
  .mk .DocumentNode [] [element "html" [element "body" [unknownLabelTable, exampleTable]]]

/-- How many records a run of `Crawl` sends; `none` when it panics. -/
def sentCount (r : Except Panic (List InterestSet)) : Option Nat :=
  match r with
  | .error _ => none
  | .ok sets => some sets.length

/-! ## Records and the cells they come from -/

/-- The record `parseTable` builds for the cell `cell` of a row of term `term`,
under the boundary `boundary`: every field but `ChangedOn`. -/
def recordOfCell (ParseFloat : Str → Option Float32) (crawlTime : Time) (term : Term)
    (boundary : RatioDiscountBoundary) (cell : Str) (s : InterestSet) : Prop :=
  s.Bank = DanskeBankName ∧ s.Term = term ∧ s.Type_ = TypeRatioDiscounted ∧
    s.RatioDiscountBoundaries = some boundary ∧ s.UnionDiscount = false ∧
    s.LastCrawledAt = crawlTime ∧
    parseInterestRatesFromCellText ParseFloat cell = .ok (s.NominalRate, s.EffectiveRate, none)

/-- The records of one data row: as many as the row has cells, the record of index
`j` built for the cell of index `j` under the boundary of index `j`, with the term
of the title of the row. -/
def recordsOfRow (ParseFloat : Str → Option Float32) (crawlTime : Time)
    (bs : List RatioDiscountBoundary) (row : rowStruct) (recs : List InterestSet) : Prop :=
  recs.length = row.fields.length ∧
    ∃ term, parseTerm row.title = (term, none) ∧
      ∀ j s, recs.get? j = some s →
        ∃ cell b, row.fields.get? j = some cell ∧ bs.get? j = some b ∧
          recordOfCell ParseFloat crawlTime term b cell s

/-- A table with a negative number in the first cell of its data row. -/
def negativeRateTable : Node :=
  element "table" [element "tbody" [exampleHeaderRow,
    exampleDataRow "3 mån" ["-1,50 %", "3,55 %", "3,65 %", "3,75 %"]]]

/-- A second table, with other rates than the example table. -/
def unionOfferExampleTable : Node :=
  element "table" [element "tbody" [exampleHeaderRow,
    exampleDataRow "3 mån" ["3,35 %", "3,45 %", "3,55 %", "3,65 %"],
    exampleDataRow "1 år" ["2,95 %", "3,05 %", "3,15 %", "3,25 %"]]]

/-- A document with the example table and the second table. -/
def standardAndUnionDocument : Node :=
  .mk .DocumentNode [] [element "html" [element "body" [exampleTable, unionOfferExampleTable]]]

/-- The part of a cell text that is handed to `ParseFloat`: the first part of the
split of the sanitised text, with `,` replaced by `.`. -/
def rateToken (cell : Str) : Str :=
  ReplaceAll (firstPart (untrimmed cell)) ',' ".".toList

/-! ## The service (`internal/app/crawler/service.go`) -/

/-- The interface `Store`: `UpsertInterestSet` as a function of the state of the
store, giving the new state and the error. -/
structure Store (σ : Type) where
  UpsertInterestSet : σ → InterestSet → σ × Option Error

/-- What the logger of the service is given. -/
inductive LogEntry where
  | info (msg : String)
  | infoSet (msg : String) (set : InterestSet)
  | errorSet (msg : String) (set : InterestSet) (err : Error)

/-- What a run of `recv` has done: the state of the store, the arguments of the
calls of `UpsertInterestSet` in the order of the calls, and the log. -/
structure RecvState (σ : Type) where
  store : σ
  calls : List InterestSet
  log : List LogEntry

/-- The loop `for set := range c` of `recv`, on what is received from the channel
until it is closed. -/
def recvLoop {σ : Type} (s : Store σ) : List InterestSet → RecvState σ → RecvState σ
  | [], st => st
  | set :: rest, st =>
    match s.UpsertInterestSet st.store set with
    | (store, some err) =>
      recvLoop s rest
        { store := store
          calls := st.calls ++ [set]
          log := st.log ++ [.errorSet "failed to upsert interestSet" set err,
            .infoSet "successfully upserted interestSet" set] }
    | (store, none) =>
      recvLoop s rest
        { store := store
          calls := st.calls ++ [set]
          log := st.log ++ [.infoSet "successfully upserted interestSet" set] }

/-- The method `Service.recv`; `c` is the sequence of the records received from the
channel before it is closed, `store` the state of the store at the start. -/
def recv {σ : Type} (s : Store σ) (store : σ) (c : List InterestSet) : RecvState σ :=
  recvLoop s c { store := store, calls := [], log := [.info "starting crawler receiver"] }

/-- A store that counts the calls and fails on every second one, the first
included. -/
def alternatingStore : Store Nat where
  UpsertInterestSet n _ := (n + 1, if n % 2 = 0 then some (.external "store") else none)

/-- A store that fails on every call. -/
def failingStore : Store Nat where
  UpsertInterestSet n _ := (n + 1, some (.external "store"))

/-! ## A run of `Service.Crawl`, goroutine by goroutine -/

/-- Where the goroutine that runs `Service.Crawl` stands: in the loop that starts
the producers and then the receiver, at `wg.Wait()`, before `close(objChan)`, or
returned. -/
inductive CrawlPc where
  | starting | waiting | closing | returned
deriving DecidableEq

/-- Where the goroutine that runs `recv` stands: not started, at the receive of
`for set := range c`, with a received record before the call of
`UpsertInterestSet`, or out of the loop. -/
inductive RecvPc where
  | notStarted
  | receiving
  | upserting (set : InterestSet)
  | finished
deriving DecidableEq

/-- The state of a run of `Service.Crawl`.  A crawler is given by the records its
`Crawl` sends before it returns.  `crawlers` are the crawlers the loop has still to
start; `producers` the goroutines started, with the records still to send, `none`
once `Crawl` has returned and the deferred `wg.Done()` has run; `wg` the counter of
the wait group; `closes` how many times `close(objChan)` has run; `sendOnClosed`
whether a producer has sent on the closed channel; `calls` the arguments of the calls
of `UpsertInterestSet` so far. -/
structure RunState where
  crawlers : List (List InterestSet)
  producers : List (Option (List InterestSet))
  wg : Nat
  pc : CrawlPc
  receiver : RecvPc
  closes : Nat
  sendOnClosed : Bool
  calls : List InterestSet

/-- The goroutines of a run. -/
inductive Thread where
  | service
  | producer (i : Nat)
  | receiver
deriving DecidableEq

/-- The state at the call of `Service.Crawl`. -/
def RunState.start (crawlers : List (List InterestSet)) : RunState :=
  { crawlers := crawlers, producers := [], wg := 0, pc := .starting, receiver := .notStarted,
    closes := 0, sendOnClosed := false, calls := [] }

/-- One step of one goroutine, `none` when the goroutine cannot move (it is blocked
or has ended).  The channel is unbuffered: a send goes through when the receiver
stands at its receive, and hands the record over. -/
def RunState.step (st : RunState) : Thread → Option RunState
  | .service =>
    match st.pc with
    | .starting =>
      match st.crawlers with
      | c :: rest =>
        -- wg.Add(1); go func(c SiteCrawler) { defer wg.Done(); c.Crawl(objChan) }(c)
        some { st with crawlers := rest, producers := st.producers ++ [some c], wg := st.wg + 1 }
      | [] =>
        -- go s.recv(objChan)
        some { st with receiver := .receiving, pc := .waiting }
    | .waiting =>
      -- wg.Wait()
      if st.wg = 0 then some { st with pc := .closing } else none
    | .closing =>
      -- close(objChan)
      some { st with closes := st.closes + 1, pc := .returned }
    | .returned => none
  | .producer i =>
    match st.producers.get? i with
    | some (some (set :: rest)) =>
      -- channel <- set
      if 0 < st.closes then some { st with sendOnClosed := true }
      else
        match st.receiver with
        | .receiving =>
          some { st with producers := st.producers.set i (some rest), receiver := .upserting set }
        | _ => none
    | some (some []) =>
      -- return of c.Crawl(objChan), then wg.Done()
      some { st with producers := st.producers.set i none, wg := st.wg - 1 }
    | _ => none
  | .receiver =>
    match st.receiver with
    | .upserting set =>
      -- s.store.UpsertInterestSet(set)
      some { st with calls := st.calls ++ [set], receiver := .receiving }
    | .receiving =>
      -- the range loop ends on the closed channel
      if 0 < st.closes then some { st with receiver := .finished } else none
    | _ => none

/-- A run under a schedule: the goroutines move in the order given. -/
def RunState.run : List Thread → RunState → Option RunState
  | [], st => some st
  | t :: rest, st =>
    match st.step t with
    | none => none
    | some st2 => RunState.run rest st2

/-- What holds of every state of a run: the counter of the wait group is the number
of producers that have not returned, and the channel is closed only by the last step
of `Service.Crawl`, once, with no crawler to start and no producer left. -/
def RunState.invariant (st : RunState) : Prop :=
  st.wg = st.producers.countP Option.isSome ∧ st.sendOnClosed = false ∧
    match st.pc with
    | .starting => st.closes = 0
    | .waiting => st.closes = 0 ∧ st.crawlers = []
    | .closing => st.closes = 0 ∧ st.crawlers = [] ∧ st.wg = 0
    | .returned => st.closes = 1 ∧ st.crawlers = [] ∧ st.wg = 0

/-- The runes `parseInterestRatesFromCellText` removes or replaces: whitespace
(`\s`) and `%`, `*`, `(`, `)`. -/
def isSpaceOrDecoration (c : Char) : Bool :=
  isRegexpSpace c || c = '%' || c = '*' || c = '(' || c = ')'

/-! ## The text of a node, in one pass -/

mutual
/-- The `Data` of the text nodes of a node and of everything under it, in document
order, depth first. -/
def textsOf : Node → List Str
  | .mk t d cs => (if t = .TextNode then [d] else []) ++ textsOfAll cs
/-- The `Data` of the text nodes of a list of siblings and of everything under
them. -/
def textsOfAll : List Node → List Str
  | [] => []
  | c :: cs => textsOf c ++ textsOfAll cs
end

/-- Strings joined by single spaces. -/
def joinWithSpaces : List Str → Str
  | [] => []
  | [t] => t
  | t :: u :: ts => t ++ ' ' :: joinWithSpaces (u :: ts)

/-- The normalisation of the specification: U+00A0 replaced by a space, every run of
whitespace (`\s`) collapsed to one space, the spaces at both ends trimmed. -/
def normalise (s : Str) : Str :=
  Trim (regexpSpacesReplaceAllString
    (s.map fun c => if c = Char.ofNat 0xA0 then ' ' else c) " ".toList) ' '

/-- The one-pass reference for `getAllTextFromNode`: the texts of the subtree joined
by single spaces, normalised once; the empty string for the nil node. -/
def allTextReference : Option Node → Str
  | none => []
  | some node => normalise (joinWithSpaces (textsOf node))

/-- The runes that separate words for the normalisation: whitespace (`\s`) and
U+00A0. -/
def isSeparator (c : Char) : Bool :=
  isRegexpSpace c || c = Char.ofNat 0xA0

/-- Whether a string holds a rune that is not a separator. -/
def hasWord (s : Str) : Bool :=
  s.any fun c => !isSeparator c

/-- The normalisation as one left-to-right pass: separators are dropped, and one
space is put before a word when a word has been put out already (`started`) and a
separator was met since (`pending`). -/
def streamNormal : Bool → Bool → Str → Str
  | _, _, [] => []
  | started, pending, c :: cs =>
    if isSeparator c then streamNormal started true cs
    else if started && pending then ' ' :: c :: streamNormal true false cs
    else c :: streamNormal true false cs

/-- Whether a separator is pending after a string has gone through the pass. -/
def pendingAfter : Bool → Str → Bool
  | pending, [] => pending
  | _, c :: cs => pendingAfter (isSeparator c) cs

/-- Every string of the list with a space in front, one after the other. -/
def spaced (ts : List Str) : Str :=
  ts.flatMap fun t => ' ' :: t

/-- Two strings that go through the pass the same way after a separator. -/
def sameWords (x y : Str) : Prop :=
  (∀ st, streamNormal st true x = streamNormal st true y) ∧ hasWord x = hasWord y

/-- A cell with nested elements, an element without text and an empty text. -/
def nestedTextExample : Node :=
  element "td" [textNode "  3,45 % ", element "span" [],
    element "b" [textNode "", element "i" [textNode "(3,51 %)\n"]], textNode "*"]

/-! ## Cell texts as they reach `parseInterestRatesFromCellText` -/

/-- A cell of a table that holds the text `s`. -/
def cellOfText (s : Str) : Node :=
  .mk .ElementNode "td".toList [.mk .TextNode s []]

/-- Two texts that differ only by whitespace: a whitespace rune (`\s`) in the place
of a space, a space repeated, a space in front or at the end; in either direction,
any number of times. -/
inductive SpaceVariant : Str → Str → Prop where
  | whitespace (a b : Str) (c : Char) :
      isRegexpSpace c = true → SpaceVariant (a ++ c :: b) (a ++ ' ' :: b)
  | repeatedSpace (a b : Str) : SpaceVariant (a ++ ' ' :: b) (a ++ ' ' :: ' ' :: b)
  | leadingSpace (s : Str) : SpaceVariant s (' ' :: s)
  | trailingSpace (s : Str) : SpaceVariant s (s ++ [' '])
  | refl (s : Str) : SpaceVariant s s
  | symm {s t : Str} : SpaceVariant s t → SpaceVariant t s
  | trans {s t u : Str} : SpaceVariant s t → SpaceVariant t u → SpaceVariant s u

/-! # Theorems -/

/-! ## Lemmas on strings -/

theorem replaceSpaceRunsFrom_nil (b : Bool) (s : Str) :
    replaceSpaceRunsFrom [] b s = removeWhitespace s := by
  induction s generalizing b with
  | nil => rfl
  | cons c cs ih =>
    by_cases h : isRegexpSpace c = true
    · cases b <;> simp [replaceSpaceRunsFrom, removeWhitespace, h, ih]
    · simp [replaceSpaceRunsFrom, removeWhitespace, h, ih]

theorem regexpSpacesReplaceAllString_nil (s : Str) :
    regexpSpacesReplaceAllString s [] = removeWhitespace s :=
  replaceSpaceRunsFrom_nil false s

/-! ## Lookup tables -/

theorem lookupLabel_cons {β : Type} (key k : Str) (v : β) (rest : List (Str × β)) :
    lookupLabel key ((k, v) :: rest) = if key = k then some v else lookupLabel key rest := rfl

/-- A chain of `case` labels is a lookup in the list of the labels. -/
theorem ite_lookupLabel_cons {β γ : Type} (key k : Str) (v : β) (rest : List (Str × β))
    (found : β → γ) (missing other : γ)
    (h : other = (lookupLabel key rest).elim missing found) :
    (if key = k then found v else other) =
      (lookupLabel key ((k, v) :: rest)).elim missing found := by
  rw [lookupLabel_cons]
  by_cases hk : key = k
  · rw [if_pos hk, if_pos hk]; rfl
  · rw [if_neg hk, if_neg hk]; exact h

/-- The `switch` of `parseTerm` is a lookup in the table of the labels. -/
theorem parseTerm_eq_elim (title : Str) :
    parseTerm title = (lookupLabel (removeWhitespace title) termTable).elim
      ([], some (.parseTermFailed title (removeWhitespace title)))
      (fun term => (term, none)) := by
  unfold parseTerm termTable
  rw [regexpSpacesReplaceAllString_nil]
  dsimp only
  iterate 11 refine ite_lookupLabel_cons _ _ _ _ (fun term => (term, none)) _ _ ?_
  rfl

/-- C1. `parseTerm` is the lookup of its argument, whitespace removed, in the table
of the eleven labels: a label of the table gives its term and no error, any other
string gives the empty term and an error; the empty term is none of the eleven
terms. -/
theorem parseTerm_eq_termTable_lookup (title : Str) :
    parseTerm title =
      (match lookupLabel (removeWhitespace title) termTable with
       | some term => (term, none)
       | none => ([], some (.parseTermFailed title (removeWhitespace title)))) ∧
    ([] : Term) ∉ termTable.map Prod.snd := by
  refine ⟨?_, by decide⟩
  rw [parseTerm_eq_elim]
  cases lookupLabel (removeWhitespace title) termTable <;> rfl

/-- The four intervals of the specification are the literals of the code. -/
theorem boundaryTable_eq_code :
    boundaryTable =
      [("60%".toList, { MinRatio := 0, MaxRatio := 0.6 }),
       ("61-74%".toList, { MinRatio := 0.6, MaxRatio := 0.75 }),
       ("75-79%".toList, { MinRatio := 0.75, MaxRatio := 0.8 }),
       ("80-85%".toList, { MinRatio := 0.8, MaxRatio := 0.85 })] := by
  have h6 : (0.60 : Float32) = 0.6 := by norm_num
  have h8 : (0.80 : Float32) = 0.8 := by norm_num
  unfold boundaryTable
  rw [h6, h8]

/-- One turn of the loop of `parseDiscountBoundaries` is a lookup in the table. -/
theorem parseDiscountBoundariesLoop_cons (cat : Str) (rest : List Str)
    (out : List RatioDiscountBoundary) :
    parseDiscountBoundariesLoop (cat :: rest) out =
      (boundaryOfField cat).elim
        ([], some (.parseDiscountBoundaryFailed cat (removeWhitespace cat)))
        (fun b => parseDiscountBoundariesLoop rest (out ++ [b])) := by
  unfold boundaryOfField
  rw [boundaryTable_eq_code, parseDiscountBoundariesLoop, regexpSpacesReplaceAllString_nil]
  iterate 4
    refine ite_lookupLabel_cons _ _ _ _
      (fun b => parseDiscountBoundariesLoop rest (out ++ [b])) _ _ ?_
  rfl

theorem parseDiscountBoundariesLoop_canonical (fields : List Str) :
    ∀ out : List RatioDiscountBoundary,
      fields.all (fun f => (boundaryOfField f).isSome) = true →
        ∃ bs, parseDiscountBoundariesLoop fields out = (out ++ bs, none) ∧
          bs.map some = fields.map boundaryOfField := by
  induction fields with
  | nil => intro out _; exact ⟨[], by simp [parseDiscountBoundariesLoop], rfl⟩
  | cons f rest ih =>
    intro out h
    rw [List.all_cons, Bool.and_eq_true] at h
    obtain ⟨b, hb⟩ := Option.isSome_iff_exists.mp h.1
    obtain ⟨bs, e, hm⟩ := ih (out ++ [b]) h.2
    refine ⟨b :: bs, ?_, ?_⟩
    · rw [parseDiscountBoundariesLoop_cons, hb, Option.elim_some, e]; simp
    · rw [List.map_cons, List.map_cons, hm, hb]

theorem parseDiscountBoundariesLoop_other (fields : List Str) :
    ∀ out : List RatioDiscountBoundary,
      fields.all (fun f => (boundaryOfField f).isSome) = false →
        (parseDiscountBoundariesLoop fields out).1 = [] ∧
          (parseDiscountBoundariesLoop fields out).2 ≠ none := by
  induction fields with
  | nil => intro out h; simp at h
  | cons f rest ih =>
    intro out h
    rw [parseDiscountBoundariesLoop_cons]
    cases hb : boundaryOfField f with
    | none => simp
    | some b =>
      rw [List.all_cons, hb] at h
      exact ih (out ++ [b]) (by simpa using h)

/-- C2. When every header field, whitespace removed, is one of the four canonical
labels, `parseDiscountBoundaries` returns no error and a list whose i-th element is
the interval of the table for the i-th field (so of the same length); when some
field is any other label it returns an error and no boundary at all. -/
theorem parseDiscountBoundaries_eq_boundaryTable (fields : List Str) :
    if fields.all (fun f => (boundaryOfField f).isSome) then
      (parseDiscountBoundaries fields).2 = none ∧
        (parseDiscountBoundaries fields).1.map some = fields.map boundaryOfField
    else
      (parseDiscountBoundaries fields).1 = [] ∧ (parseDiscountBoundaries fields).2 ≠ none := by
  unfold parseDiscountBoundaries
  split
  · next h =>
    obtain ⟨bs, e, hm⟩ := parseDiscountBoundariesLoop_canonical fields [] h
    rw [e]; exact ⟨rfl, by simpa using hm⟩
  · next h =>
    exact parseDiscountBoundariesLoop_other fields [] (by simpa using h)

/-! ## Cell texts -/

theorem ReplaceAll_append (a b : Str) (old : Char) (new : Str) :
    ReplaceAll (a ++ b) old new = ReplaceAll a old new ++ ReplaceAll b old new := by
  simp [ReplaceAll]

theorem removeDecoration_append (a b : Str) :
    removeDecoration (a ++ b) = removeDecoration a ++ removeDecoration b := by
  simp [removeDecoration, ReplaceAll_append]

theorem removeDecoration_cons (c : Char) (s : Str) :
    removeDecoration (c :: s) = removeDecoration [c] ++ removeDecoration s :=
  removeDecoration_append [c] s

theorem removeDecoration_space : removeDecoration [' '] = [' '] := by decide

theorem replaceSpaceRunsFrom_append (repl : Str) (a s : Str) :
    ∀ b, replaceSpaceRunsFrom repl b (a ++ s) =
      replaceSpaceRunsFrom repl b a ++ replaceSpaceRunsFrom repl (runState b a) s := by
  induction a with
  | nil => intro b; rfl
  | cons c cs ih =>
    intro b
    by_cases h : isRegexpSpace c = true
    · cases b <;> simp [replaceSpaceRunsFrom, runState, h, ih]
    · simp [replaceSpaceRunsFrom, runState, h, ih]

/-- After a text that ends in a run, the replaced text ends in a space, unless
the whole text continues a run that started before it. -/
theorem replaceSpaceRunsFrom_ends (a : Str) :
    ∀ b, runState b a = true →
      (b = true ∧ replaceSpaceRunsFrom [' '] b a = []) ∨
        ∃ u, replaceSpaceRunsFrom [' '] b a = u ++ [' '] := by
  induction a with
  | nil => intro b h; exact Or.inl ⟨h, rfl⟩
  | cons c cs ih =>
    intro b h
    by_cases hc : isRegexpSpace c = true
    · rw [runState, hc] at h
      rcases ih true h with ⟨-, e⟩ | ⟨u, e⟩
      · cases b
        · exact Or.inr ⟨[], by simp [replaceSpaceRunsFrom, hc, e]⟩
        · exact Or.inl ⟨rfl, by simp [replaceSpaceRunsFrom, hc, e]⟩
      · cases b
        · exact Or.inr ⟨' ' :: u, by simp [replaceSpaceRunsFrom, hc, e]⟩
        · exact Or.inr ⟨u, by simp [replaceSpaceRunsFrom, hc, e]⟩
    · have hc2 : isRegexpSpace c = false := by simpa using hc
      rw [runState, hc2] at h
      rcases ih false h with ⟨hb, -⟩ | ⟨u, e⟩
      · cases hb
      · exact Or.inr ⟨c :: u, by simp [replaceSpaceRunsFrom, hc2, e]⟩

theorem sanitizedCellText_eq (cell : Str) :
    sanitizedCellText cell = TrimSpace (untrimmed cell) := rfl

/-- Putting a decoration rune anywhere in a cell text changes the untrimmed text by
one space at most. -/
theorem untrimmed_insert (a b : Str) (d : Char) (hd : removeDecoration [d] = [])
    (hs : isRegexpSpace d = false) :
    Padded (untrimmed (a ++ b)) (untrimmed (a ++ d :: b)) := by
  unfold untrimmed regexpSpacesReplaceAllString
  rw [replaceSpaceRunsFrom_append, replaceSpaceRunsFrom_append]
  have hd2 : ∀ st, replaceSpaceRunsFrom " ".toList st (d :: b) =
      d :: replaceSpaceRunsFrom " ".toList false b := by
    intro st; simp [replaceSpaceRunsFrom, hs]
  rw [hd2, removeDecoration_append, removeDecoration_append, removeDecoration_cons d, hd,
    List.nil_append]
  cases he : runState false a with
  | false => exact Padded.same _
  | true =>
    rcases replaceSpaceRunsFrom_ends a false he with ⟨hb, -⟩ | ⟨u, e⟩
    · cases hb
    · cases b with
      | nil => exact Padded.same _
      | cons c b1 =>
        by_cases hc : isRegexpSpace c = true
        · have e1 : replaceSpaceRunsFrom " ".toList true (c :: b1) =
              replaceSpaceRunsFrom " ".toList true b1 := by simp [replaceSpaceRunsFrom, hc]
          have e2 : replaceSpaceRunsFrom " ".toList false (c :: b1) =
              ' ' :: replaceSpaceRunsFrom " ".toList true b1 := by simp [replaceSpaceRunsFrom, hc]
          have e3 : replaceSpaceRunsFrom " ".toList false a = u ++ [' '] := e
          rw [e1, e2, e3, removeDecoration_append, removeDecoration_space,
            removeDecoration_cons ' ', removeDecoration_space]
          simpa using Padded.double (removeDecoration u)
            (removeDecoration (replaceSpaceRunsFrom " ".toList true b1))
        · have e1 : replaceSpaceRunsFrom " ".toList true (c :: b1) =
              replaceSpaceRunsFrom " ".toList false (c :: b1) := by
            simp [replaceSpaceRunsFrom, hc]
          rw [e1]; exact Padded.same _

theorem untrimmed_repeatedSpace (a b : Str) :
    untrimmed (a ++ ' ' :: b) = untrimmed (a ++ ' ' :: ' ' :: b) := by
  unfold untrimmed regexpSpacesReplaceAllString
  rw [replaceSpaceRunsFrom_append, replaceSpaceRunsFrom_append]
  have hsp : isRegexpSpace ' ' = true := by decide
  cases runState false a <;> simp [replaceSpaceRunsFrom, hsp]

theorem untrimmed_leadingSpace (s : Str) : Padded (untrimmed s) (untrimmed (' ' :: s)) := by
  unfold untrimmed regexpSpacesReplaceAllString
  have hsp : isRegexpSpace ' ' = true := by decide
  have e0 : replaceSpaceRunsFrom " ".toList false (' ' :: s) =
      ' ' :: replaceSpaceRunsFrom " ".toList true s := by simp [replaceSpaceRunsFrom, hsp]
  rw [e0, removeDecoration_cons ' ', removeDecoration_space]
  cases s with
  | nil => exact Padded.lead _
  | cons c s1 =>
    by_cases hc : isRegexpSpace c = true
    · have e1 : replaceSpaceRunsFrom " ".toList false (c :: s1) =
          ' ' :: replaceSpaceRunsFrom " ".toList true s1 := by simp [replaceSpaceRunsFrom, hc]
      have e2 : replaceSpaceRunsFrom " ".toList true (c :: s1) =
          replaceSpaceRunsFrom " ".toList true s1 := by simp [replaceSpaceRunsFrom, hc]
      rw [e1, e2, removeDecoration_cons ' ', removeDecoration_space]
      exact Padded.same _
    · have e1 : replaceSpaceRunsFrom " ".toList true (c :: s1) =
          replaceSpaceRunsFrom " ".toList false (c :: s1) := by simp [replaceSpaceRunsFrom, hc]
      rw [e1]; exact Padded.lead _

theorem untrimmed_trailingSpace (s : Str) : Padded (untrimmed s) (untrimmed (s ++ [' '])) := by
  unfold untrimmed regexpSpacesReplaceAllString
  have hsp : isRegexpSpace ' ' = true := by decide
  rw [replaceSpaceRunsFrom_append, removeDecoration_append]
  cases runState false s with
  | false =>
    have e : replaceSpaceRunsFrom " ".toList false [' '] = [' '] := by decide
    rw [e, removeDecoration_space]; exact Padded.trail _
  | true =>
    have e : replaceSpaceRunsFrom " ".toList true [' '] = [] := by decide
    have e0 : removeDecoration [] = [] := rfl
    rw [e, e0, List.append_nil]; exact Padded.same _

theorem TrimSpace_leadingSpace (y : Str) : TrimSpace (' ' :: y) = TrimSpace y := by
  have hsp : unicodeIsSpace ' ' = true := by decide
  simp [TrimSpace, hsp]

theorem TrimSpace_trailingSpace (y : Str) : TrimSpace (y ++ [' ']) = TrimSpace y := by
  have hsp : unicodeIsSpace ' ' = true := by decide
  unfold TrimSpace
  rw [List.dropWhile_append]
  split
  · next h =>
    have h2 : List.dropWhile unicodeIsSpace y = [] := by simpa using h
    simp [h2, hsp]
  · rw [List.rdropWhile_concat_pos _ _ _ hsp]

theorem rdropWhile_append_of_all {α : Type} (p : α → Bool) (a b : List α)
    (h : ∀ x ∈ b, p x = true) : (a ++ b).rdropWhile p = a.rdropWhile p := by
  induction b using List.reverseRecOn with
  | nil => simp
  | append_singleton b x ih =>
    rw [← List.append_assoc, List.rdropWhile_concat_pos _ _ _ (h x (by simp))]
    exact ih fun y hy => h y (by simp [hy])

theorem rdropWhile_append_of_not_all {α : Type} (p : α → Bool) (a b : List α)
    (h : ¬ ∀ x ∈ b, p x = true) : (a ++ b).rdropWhile p = a ++ b.rdropWhile p := by
  induction b using List.reverseRecOn with
  | nil => simp at h
  | append_singleton b x ih =>
    by_cases hx : p x = true
    · rw [← List.append_assoc, List.rdropWhile_concat_pos _ _ _ hx,
        List.rdropWhile_concat_pos _ _ _ hx]
      apply ih
      intro hb; apply h
      intro y hy
      rcases List.mem_append.mp hy with hy | hy
      · exact hb y hy
      · simp at hy; rw [hy]; exact hx
    · rw [← List.append_assoc, List.rdropWhile_concat_neg _ _ _ hx,
        List.rdropWhile_concat_neg _ _ _ hx, List.append_assoc]

theorem takeWhile_append_stop {α : Type} (q : α → Bool) (a : List α) (c : α) (x : List α)
    (hc : q c = false) : (a ++ c :: x).takeWhile q = a.takeWhile q := by
  induction a with
  | nil => simp [hc]
  | cons h t ih =>
    by_cases hh : q h = true
    · simp [List.takeWhile_cons, hh, ih]
    · simp [List.takeWhile_cons, hh]

theorem firstPart_padded {y z : Str} (h : Padded y z) : firstPart y = firstPart z := by
  have hsp : unicodeIsSpace ' ' = true := by decide
  cases h with
  | same => rfl
  | lead => unfold firstPart; rw [TrimSpace_leadingSpace]
  | trail => unfold firstPart; rw [TrimSpace_trailingSpace]
  | double u v =>
    unfold firstPart TrimSpace
    by_cases hu : ∀ x ∈ u, unicodeIsSpace x = true
    · rw [List.dropWhile_append_of_pos hu, List.dropWhile_append_of_pos hu]
      simp [hsp]
    · have hne : (List.dropWhile unicodeIsSpace u).isEmpty = false := by
        cases hd : List.dropWhile unicodeIsSpace u with
        | nil => exact absurd (List.dropWhile_eq_nil_iff.mp hd) hu
        | cons _ _ => rfl
      rw [List.dropWhile_append, List.dropWhile_append, hne]
      simp only [Bool.false_eq_true, if_false]
      by_cases hv : ∀ x ∈ v, unicodeIsSpace x = true
      · rw [rdropWhile_append_of_all _ _ (' ' :: v) (by simpa [hsp] using hv),
          rdropWhile_append_of_all _ _ (' ' :: ' ' :: v) (by simpa [hsp] using hv)]
      · rw [rdropWhile_append_of_not_all _ _ (' ' :: v) (by simpa [hsp] using hv),
          rdropWhile_append_of_not_all _ _ (' ' :: ' ' :: v) (by simpa [hsp] using hv)]
        have e1 : List.rdropWhile unicodeIsSpace (' ' :: v) =
            ' ' :: List.rdropWhile unicodeIsSpace v :=
          rdropWhile_append_of_not_all _ [' '] v hv
        have e2 : List.rdropWhile unicodeIsSpace (' ' :: ' ' :: v) =
            ' ' :: ' ' :: List.rdropWhile unicodeIsSpace v :=
          rdropWhile_append_of_not_all _ [' ', ' '] v hv
        rw [e1, e2, takeWhile_append_stop _ _ _ _ (by decide),
          takeWhile_append_stop _ _ _ _ (by decide)]

theorem firstPart_insert (a b : Str) (d : Char) (hd : removeDecoration [d] = [])
    (hs : isRegexpSpace d = false) :
    firstPart (untrimmed (a ++ b)) = firstPart (untrimmed (a ++ d :: b)) :=
  firstPart_padded (untrimmed_insert a b d hd hs)

theorem firstPart_enclose (a s b : Str) (l r : Char)
    (hl : removeDecoration [l] = []) (hls : isRegexpSpace l = false)
    (hr : removeDecoration [r] = []) (hrs : isRegexpSpace r = false) :
    firstPart (untrimmed (a ++ s ++ b)) = firstPart (untrimmed (a ++ l :: s ++ r :: b)) := by
  have h1 := firstPart_insert a (s ++ b) l hl hls
  have h2 := firstPart_insert (a ++ l :: s) b r hr hrs
  simp only [List.append_assoc, List.cons_append] at h1 h2 ⊢
  rw [h1, h2]

theorem firstPart_variant {s t : Str} (h : CellTextVariant false s t) :
    firstPart (untrimmed s) = firstPart (untrimmed t) := by
  induction h with
  | repeatedSpace a b => rw [untrimmed_repeatedSpace]
  | nonBreakingSpace a b hn => cases hn
  | leadingSpace s => exact firstPart_padded (untrimmed_leadingSpace s)
  | trailingSpace s => exact firstPart_padded (untrimmed_trailingSpace s)
  | parentheses a s b =>
    exact firstPart_enclose a s b '(' ')' (by decide) (by decide) (by decide) (by decide)
  | asterisks a s b =>
    exact firstPart_enclose a s b '*' '*' (by decide) (by decide) (by decide) (by decide)
  | refl s => rfl
  | symm _ ih => exact ih.symm
  | trans _ _ ih1 ih2 => exact ih1.trans ih2

theorem Split_head (s : Str) (sep : Char) :
    ∃ ps, Split s sep = s.takeWhile (fun c => !decide (c = sep)) :: ps := by
  induction s with
  | nil => exact ⟨[], rfl⟩
  | cons c cs ih =>
    obtain ⟨ps, h⟩ := ih
    by_cases hc : c = sep
    · exact ⟨Split cs sep, by simp [Split, hc]⟩
    · exact ⟨ps, by simp [Split, hc, h]⟩

/-- The part of the sanitised text that is parsed. -/
theorem parseInterestRatesFromCellText_outcome (ParseFloat : Str → Option Float32)
    (cell : Str) :
    cellOutcome (parseInterestRatesFromCellText ParseFloat cell) =
      .ok (match ParseFloat (ReplaceAll (firstPart (untrimmed cell)) ',' ".".toList) with
           | none => (0, 0, true)
           | some rate => (rate, rate, false)) := by
  obtain ⟨ps, h⟩ := Split_head (sanitizedCellText cell) ' '
  unfold parseInterestRatesFromCellText
  simp only []
  unfold firstPart untrimmed removeDecoration
  unfold sanitizedCellText at h
  rw [h]
  simp only []
  cases ParseFloat _ <;> rfl

/-- Ordinary spaces and decoration: `parseInterestRatesFromCellText` gives the same
outcome, the text of the error apart, on two texts that differ only by repeated
spaces, a space in front or at the end, or parentheses and asterisks put around a
part of the text. -/
theorem cellOutcome_of_variant (ParseFloat : Str → Option Float32)
    {s t : Str} (h : CellTextVariant false s t) :
    cellOutcome (parseInterestRatesFromCellText ParseFloat s) =
      cellOutcome (parseInterestRatesFromCellText ParseFloat t) := by
  rw [parseInterestRatesFromCellText_outcome, parseInterestRatesFromCellText_outcome,
    firstPart_variant h]

/-- The function by itself does not take U+00A0 for a space: the expression `\s+`
does not match it and `strings.Split` splits at U+0020, so a text with U+00A0
between two numbers is one part, which `ParseFloat` rejects.  Such a text does not
reach the function: `getAllTextFromNode` replaces U+00A0 by a space (line 236)
before its only call (line 102). -/
theorem parseInterestRatesFromCellText_unsanitized :
    outcomeFailed (cellOutcome (parseInterestRatesFromCellText parseDecimal
        ("3,45".toList ++ Char.ofNat 0xA0 :: "3,51".toList))) = true ∧
      getAllTextFromNode (some (cellOfText ("3,45".toList ++ Char.ofNat 0xA0 :: "3,51".toList))) =
        "3,45 3,51".toList :=
  ⟨by decide, by decide⟩

/-! ## Tables -/

theorem parseableCell_ok {ParseFloat : Str → Option Float32} {cell : Str}
    (h : parseableCell ParseFloat cell) :
    ∃ nominal effective,
      parseInterestRatesFromCellText ParseFloat cell = .ok (nominal, effective, none) := by
  unfold parseableCell at h
  cases hr : parseInterestRatesFromCellText ParseFloat cell with
  | error p => rw [hr] at h; cases h
  | ok r =>
    obtain ⟨nominal, effective, err⟩ := r
    cases err with
    | none => exact ⟨nominal, effective, rfl⟩
    | some e => rw [hr] at h; cases h

theorem parseTableCells_parseable (ParseFloat : Str → Option Float32) (today : Nat → Date)
    (crawlTime : Time) (bs : List RatioDiscountBoundary) (term : Term) (fields : List Str) :
    ∀ (i : Nat) (sets : List InterestSet),
      (∀ c ∈ fields, parseableCell ParseFloat c) → i + fields.length ≤ bs.length →
      ∃ new, parseTableCells ParseFloat today crawlTime bs term i fields sets =
          .ok (.ok (sets ++ new)) ∧ new.length = fields.length ∧
        ∀ s ∈ new, s.Type_ = TypeRatioDiscounted ∧ s.RatioDiscountBoundaries ≠ none := by
  induction fields with
  | nil => intro i sets _ _; exact ⟨[], by simp [parseTableCells], rfl, by simp⟩
  | cons c rest ih =>
    intro i sets hp hlen
    obtain ⟨nominal, effective, hc⟩ := parseableCell_ok (hp c (by simp))
    have hi : i < bs.length := by simp at hlen; omega
    obtain ⟨b, hb⟩ : ∃ b, bs.get? i = some b := ⟨bs.get ⟨i, hi⟩, List.get?_eq_get hi⟩
    obtain ⟨new, e, hl, hall⟩ := ih (i + 1)
      (sets ++ [{ Bank := DanskeBankName, NominalRate := nominal, EffectiveRate := effective,
                  Term := term, Type_ := TypeRatioDiscounted,
                  RatioDiscountBoundaries := some b, UnionDiscount := false,
                  ChangedOn := today sets.length, LastCrawledAt := crawlTime }])
      (fun c hc => hp c (by simp [hc])) (by simp at hlen; omega)
    refine ⟨{ Bank := DanskeBankName, NominalRate := nominal, EffectiveRate := effective,
              Term := term, Type_ := TypeRatioDiscounted,
              RatioDiscountBoundaries := some b, UnionDiscount := false,
              ChangedOn := today sets.length, LastCrawledAt := crawlTime } :: new,
      ?_, by simp [hl], ?_⟩
    · rw [parseTableCells, hc]
      simp only [hb]
      rw [e]; simp
    · intro s hs
      rcases List.mem_cons.mp hs with rfl | hs
      · exact ⟨rfl, by simp⟩
      · exact hall s hs

theorem parseTerm_recognised {title : Str}
    (h : (lookupLabel (removeWhitespace title) termTable).isSome) :
    ∃ term, parseTerm title = (term, none) := by
  obtain ⟨term, ht⟩ := Option.isSome_iff_exists.mp h
  exact ⟨term, by rw [parseTerm_eq_elim, ht]; rfl⟩

theorem parseTableRows_wellFormed (ParseFloat : Str → Option Float32) (today : Nat → Date)
    (crawlTime : Time) (bs : List RatioDiscountBoundary) (rows : List rowStruct) :
    ∀ sets : List InterestSet,
      (∀ r ∈ rows, wellFormedRow ParseFloat bs.length r) →
      ∃ new, parseTableRows ParseFloat today crawlTime bs rows sets = .ok (.ok (sets ++ new)) ∧
        new.length = (rows.map fun r => r.fields.length).sum ∧
        ∀ s ∈ new, s.Type_ = TypeRatioDiscounted ∧ s.RatioDiscountBoundaries ≠ none := by
  induction rows with
  | nil => intro sets _; exact ⟨[], by simp [parseTableRows], rfl, by simp⟩
  | cons row rest ih =>
    intro sets hw
    obtain ⟨hterm, hcells, hlen⟩ := hw row (by simp)
    obtain ⟨term, ht⟩ := parseTerm_recognised hterm
    obtain ⟨new1, e1, hl1, hall1⟩ := parseTableCells_parseable ParseFloat today crawlTime bs
      term row.fields 0 sets hcells (by omega)
    obtain ⟨new2, e2, hl2, hall2⟩ := ih (sets ++ new1) fun r hr => hw r (by simp [hr])
    refine ⟨new1 ++ new2, ?_, by simp [hl1, hl2], ?_⟩
    · rw [parseTableRows, ht]
      simp only [e1]
      rw [e2, List.append_assoc]
    · intro s hs
      rcases List.mem_append.mp hs with hs | hs
      · exact hall1 s hs
      · exact hall2 s hs

/-- What `parseTable` does once `parseRows` has returned at least one row. -/
theorem parseTable_of_rows (ParseFloat : Str → Option Float32) (today : Nat → Date)
    (table : Node) (crawlTime : Time) (row0 : rowStruct) (rows1 : List rowStruct)
    (h : parseRows (QueryAllDescendants table "tr".toList).1 = .ok (row0 :: rows1, none)) :
    parseTable ParseFloat today table crawlTime =
      if !Contains row0.title "Belåningsgrad".toList then
        .ok ([], some .tableStructureChanged)
      else
        match parseDiscountBoundaries row0.fields with
        | (_, some err) =>
          .ok ([], some (.wrap "failed to extract categories from first rowStruct" err))
        | (discountBoundaries, none) =>
          match parseTableRows ParseFloat today crawlTime discountBoundaries rows1 [] with
          | .error p => .error p
          | .ok (.error err) => .ok ([], some err)
          | .ok (.ok sets) => .ok (sets, none) := by
  unfold parseTable
  unfold QueryAllDescendants at h ⊢
  simp only [] at h ⊢
  rw [h]

theorem parseDiscountBoundaries_canonical {fields : List Str}
    (h : ∀ f ∈ fields, (boundaryOfField f).isSome) :
    ∃ bs, parseDiscountBoundaries fields = (bs, none) ∧ bs.length = fields.length := by
  obtain ⟨bs, e, hm⟩ := parseDiscountBoundariesLoop_canonical fields []
    (List.all_eq_true.mpr fun f hf => h f hf)
  refine ⟨bs, by rw [parseDiscountBoundaries, e]; rfl, ?_⟩
  have := congrArg List.length hm
  simpa using this

theorem parseDiscountBoundaries_length {fields : List Str} {bs : List RatioDiscountBoundary}
    (h : parseDiscountBoundaries fields = (bs, none)) : bs.length = fields.length := by
  cases hall : fields.all (fun f => (boundaryOfField f).isSome) with
  | false =>
    have := (parseDiscountBoundariesLoop_other fields [] hall).2
    rw [parseDiscountBoundaries] at h
    rw [h] at this; exact absurd rfl this
  | true =>
    obtain ⟨bs2, e, hl⟩ := parseDiscountBoundaries_canonical
      (fun f hf => List.all_eq_true.mp hall f hf)
    rw [h] at e
    cases e; exact hl

/-- The header row is accepted and every data row is well formed: `parseTable`
returns one record for each cell of the data rows. -/
theorem parseTable_wellFormed (ParseFloat : Str → Option Float32) (today : Nat → Date)
    (table : Node) (crawlTime : Time) (row0 : rowStruct) (rows1 : List rowStruct)
    (hrows : parseRows (QueryAllDescendants table "tr".toList).1 = .ok (row0 :: rows1, none))
    (htitle : Contains row0.title "Belåningsgrad".toList = true)
    (hlabels : ∀ f ∈ row0.fields, (boundaryOfField f).isSome)
    (hdata : ∀ r ∈ rows1, wellFormedRow ParseFloat row0.fields.length r) :
    ∃ sets, parseTable ParseFloat today table crawlTime = .ok (sets, none) ∧
      sets.length = (rows1.map fun r => r.fields.length).sum ∧
      ∀ s ∈ sets, s.Type_ = TypeRatioDiscounted ∧ s.RatioDiscountBoundaries ≠ none := by
  obtain ⟨bs, hb, hbl⟩ := parseDiscountBoundaries_canonical hlabels
  obtain ⟨new, e, hl, hall⟩ := parseTableRows_wellFormed ParseFloat today crawlTime bs rows1 []
    (by rw [hbl]; exact hdata)
  refine ⟨new, ?_, hl, hall⟩
  rw [parseTable_of_rows ParseFloat today table crawlTime row0 rows1 hrows, htitle]
  simp only [Bool.not_true, Bool.false_eq_true, if_false, hb]
  rw [e]; rfl

/-- C4. A table whose row 0 has a title holding "Belåningsgrad" and exactly four
canonical boundary labels, followed by N rows each with a recognised term title and
exactly four cells that parse: `parseTable` returns no error and exactly 4N records,
each of type `ratioDiscounted` with a boundary that is not nil. -/
theorem parseTable_four_columns (ParseFloat : Str → Option Float32) (today : Nat → Date)
    (table : Node) (crawlTime : Time) (N : Nat) (header : rowStruct) (data : List rowStruct)
    (hrows : parseRows (QueryAllDescendants table "tr".toList).1 = .ok (header :: data, none))
    (htitle : Contains header.title "Belåningsgrad".toList = true)
    (hfour : header.fields.length = 4)
    (hlabels : ∀ f ∈ header.fields, (boundaryOfField f).isSome)
    (hN : data.length = N)
    (hdata : ∀ r ∈ data, (lookupLabel (removeWhitespace r.title) termTable).isSome ∧
      r.fields.length = 4 ∧ ∀ c ∈ r.fields, parseableCell ParseFloat c) :
    ∃ sets, parseTable ParseFloat today table crawlTime = .ok (sets, none) ∧
      sets.length = 4 * N ∧
      ∀ s ∈ sets, s.Type_ = TypeRatioDiscounted ∧ s.RatioDiscountBoundaries ≠ none := by
  obtain ⟨sets, e, hl, hall⟩ := parseTable_wellFormed ParseFloat today table crawlTime header
    data hrows htitle hlabels
    (fun r hr => ⟨(hdata r hr).1, (hdata r hr).2.2, by rw [(hdata r hr).2.1, hfour]⟩)
  refine ⟨sets, e, ?_, hall⟩
  rw [hl, ← hN]
  clear hrows hl e hN
  induction data with
  | nil => rfl
  | cons r rest ih =>
    rw [List.map_cons, List.sum_cons, (hdata r (by simp)).2.1,
      ih fun r hr => hdata r (by simp [hr])]
    simp [Nat.mul_add]; omega

/-- C4, witness: the example table, N = 2. -/
theorem parseTable_four_columns_witness :
    ∃ sets, parseTable parseDecimal (fun _ => 0) exampleTable 0 = .ok (sets, none) ∧
      sets.length = 4 * 2 ∧
      ∀ s ∈ sets, s.Type_ = TypeRatioDiscounted ∧ s.RatioDiscountBoundaries ≠ none :=
  parseTable_four_columns parseDecimal (fun _ => 0) exampleTable 0 2
    ⟨"Belåningsgrad".toList, ["60 %".toList, "61-74 %".toList, "75-79 %".toList, "80-85 %".toList]⟩
    [⟨"3 mån".toList, ["3,45 % (3,51 %)".toList, "3,55 %".toList, "3,65 %".toList, "3,75 %*".toList]⟩,
     ⟨"1 år".toList, ["3,05 %".toList, "3,15 %".toList, "3,25 %".toList, "3,35 %".toList]⟩]
    (by rfl) (by decide) (by decide) (by decide) (by decide) (by decide)

theorem parseTableCells_tooMany (ParseFloat : Str → Option Float32) (today : Nat → Date)
    (crawlTime : Time) (bs : List RatioDiscountBoundary) (term : Term) (fields : List Str) :
    ∀ (i : Nat) (sets out : List InterestSet), i ≤ bs.length → bs.length < i + fields.length →
      parseTableCells ParseFloat today crawlTime bs term i fields sets ≠ .ok (.ok out) := by
  induction fields with
  | nil => intro i sets out h1 h2; simp at h2; omega
  | cons c rest ih =>
    intro i sets out h1 h2
    rw [parseTableCells]
    cases hc : parseInterestRatesFromCellText ParseFloat c with
    | error p => simp
    | ok r =>
      obtain ⟨nominal, effective, err⟩ := r
      cases err with
      | some e => simp
      | none =>
        cases hb : bs.get? i with
        | none => simp
        | some b =>
          have hi : i < bs.length := by
            by_contra hn
            rw [List.get?_eq_none.mpr (by omega)] at hb
            cases hb
          simp only []
          exact ih (i + 1) _ out hi (by simp at h2; omega)

theorem parseTableRows_tooMany (ParseFloat : Str → Option Float32) (today : Nat → Date)
    (crawlTime : Time) (bs : List RatioDiscountBoundary) (rows : List rowStruct) :
    ∀ (sets out : List InterestSet), (∃ r ∈ rows, bs.length < r.fields.length) →
      parseTableRows ParseFloat today crawlTime bs rows sets ≠ .ok (.ok out) := by
  induction rows with
  | nil => intro sets out h; simp at h
  | cons row rest ih =>
    intro sets out h
    rw [parseTableRows]
    cases ht : parseTerm row.title with
    | mk term err =>
      cases err with
      | some e => simp
      | none =>
        simp only []
        cases hc : parseTableCells ParseFloat today crawlTime bs term 0 row.fields sets with
        | error p => simp
        | ok r =>
          cases r with
          | error e => simp
          | ok sets2 =>
            simp only []
            apply ih
            obtain ⟨r, hr, hlt⟩ := h
            rcases List.mem_cons.mp hr with rfl | hr
            · exact absurd hc
                (parseTableCells_tooMany ParseFloat today crawlTime bs term r.fields 0 sets
                  sets2 (Nat.zero_le _) (by omega))
            · exact ⟨r, hr, hlt⟩

/-- Whatever `parseTable` returns next to an error is the empty list. -/
theorem parseTable_error_nil (ParseFloat : Str → Option Float32) (today : Nat → Date)
    (table : Node) (crawlTime : Time) (sets : List InterestSet) (err : Error)
    (h : parseTable ParseFloat today table crawlTime = .ok (sets, some err)) : sets = [] := by
  unfold parseTable at h
  unfold QueryAllDescendants at h
  simp only [] at h
  split at h
  · cases h
  · cases h; rfl
  · split at h
    · cases h
    · split at h
      · cases h; rfl
      · split at h
        · cases h; rfl
        · split at h
          · cases h
          · cases h; rfl
          · cases h

/-- C5, counterexample: a data row of three cells under a header of four boundary
labels; `parseTable` returns three records and no error. -/
theorem parseTable_shortRow_counterexample :
    parseRows (QueryAllDescendants shortRowTable "tr".toList).1 =
        .ok ([⟨"Belåningsgrad".toList,
                ["60 %".toList, "61-74 %".toList, "75-79 %".toList, "80-85 %".toList]⟩,
              ⟨"3 mån".toList, ["3,45 %".toList, "3,55 %".toList, "3,65 %".toList]⟩], none) ∧
      returnedCount (parseTable parseDecimal (fun _ => 0) shortRowTable 0) = some (3, false) :=
  ⟨by rfl, by decide⟩

/-- C5 (amended). The number of cells of a data row is not compared with the number
of boundary labels.  A row with more cells than there are labels never gives
records: whenever `parseTable` returns on such a table, it returns an error and no
records.  A row with fewer cells is not an error: when the header row is accepted
and every data row has a recognised title, cells that parse and no more cells than
there are labels, `parseTable` returns no error and one record for every cell of the
data rows. -/
theorem parseTable_column_count (ParseFloat : Str → Option Float32) (today : Nat → Date)
    (table : Node) (crawlTime : Time) (header : rowStruct) (data : List rowStruct)
    (hrows : parseRows (QueryAllDescendants table "tr".toList).1 = .ok (header :: data, none)) :
    ((∃ r ∈ data, header.fields.length < r.fields.length) →
      ∀ sets err, parseTable ParseFloat today table crawlTime = .ok (sets, err) →
        sets = [] ∧ err ≠ none) ∧
    (Contains header.title "Belåningsgrad".toList = true →
      (∀ f ∈ header.fields, (boundaryOfField f).isSome) →
      (∀ r ∈ data, wellFormedRow ParseFloat header.fields.length r) →
      ∃ sets, parseTable ParseFloat today table crawlTime = .ok (sets, none) ∧
        sets.length = (data.map fun r => r.fields.length).sum) := by
  constructor
  · intro hmore sets err h
    cases err with
    | some e =>
      exact ⟨parseTable_error_nil ParseFloat today table crawlTime sets e h, by simp⟩
    | none =>
      exfalso
      rw [parseTable_of_rows ParseFloat today table crawlTime header data hrows] at h
      split at h
      · cases h
      · split at h
        · cases h
        · next bs hb =>
          have hlen := parseDiscountBoundaries_length hb
          split at h
          · cases h
          · cases h
          · next out hout =>
            exact parseTableRows_tooMany ParseFloat today crawlTime bs data [] out
              (by rw [hlen]; exact hmore) hout
  · intro htitle hlabels hdata
    obtain ⟨sets, e, hl, -⟩ := parseTable_wellFormed ParseFloat today table crawlTime header
      data hrows htitle hlabels hdata
    exact ⟨sets, e, hl⟩

/-- C5, witness: the table with a data row of three cells. -/
theorem parseTable_column_count_witness :
    ∃ sets, parseTable parseDecimal (fun _ => 0) shortRowTable 0 = .ok (sets, none) ∧
      sets.length = 3 :=
  (parseTable_column_count parseDecimal (fun _ => 0) shortRowTable 0
    ⟨"Belåningsgrad".toList, ["60 %".toList, "61-74 %".toList, "75-79 %".toList, "80-85 %".toList]⟩
    [⟨"3 mån".toList, ["3,45 %".toList, "3,55 %".toList, "3,65 %".toList]⟩]
    (by rfl)).2 (by decide) (by decide) (by decide)

/-- C6. Whenever `parseTable` returns an error, for whatever reason and at whatever
row, the list it returns with it is empty: no record of an earlier row comes with an
error. -/
theorem parseTable_all_or_nothing (ParseFloat : Str → Option Float32) (today : Nat → Date)
    (table : Node) (crawlTime : Time) (sets : List InterestSet) (err : Error)
    (h : parseTable ParseFloat today table crawlTime = .ok (sets, some err)) : sets = [] :=
  parseTable_error_nil ParseFloat today table crawlTime sets err h

/-- C6, witness: the last cell of the last row does not parse, after seven cells
that do. -/
theorem parseTable_all_or_nothing_witness :
    ∃ sets err, parseTable parseDecimal (fun _ => 0) unparseableCellTable 0 =
        .ok (sets, some err) ∧ sets = [] :=
  ⟨_, _, rfl, parseTable_all_or_nothing parseDecimal (fun _ => 0) unparseableCellTable 0 _ _ rfl⟩

/-- The header self-check, on a table of which `parseRows` returns the rows: when
the title of row 0 does not hold "Belåningsgrad", `parseTable` returns an error and
no records, whatever the boundary labels and the data rows are. -/
theorem parseTable_header_check (ParseFloat : Str → Option Float32) (today : Nat → Date)
    (table : Node) (crawlTime : Time) (row0 : rowStruct) (rows1 : List rowStruct)
    (hrows : parseRows (QueryAllDescendants table "tr".toList).1 = .ok (row0 :: rows1, none))
    (htitle : Contains row0.title "Belåningsgrad".toList = false) :
    parseTable ParseFloat today table crawlTime = .ok ([], some .tableStructureChanged) := by
  rw [parseTable_of_rows ParseFloat today table crawlTime row0 rows1 hrows, htitle]
  rfl

/-- The header self-check on a table whose row 0 has the title "Bindningstid", with
canonical labels and a well-formed data row. -/
theorem parseTable_header_check_example :
    (∀ f ∈ ["60 %".toList, "61-74 %".toList, "75-79 %".toList, "80-85 %".toList],
        (boundaryOfField f).isSome) ∧
      wellFormedRow parseDecimal 4
        ⟨"3 mån".toList, ["3,45 %".toList, "3,55 %".toList, "3,65 %".toList, "3,75 %".toList]⟩ ∧
      parseTable parseDecimal (fun _ => 0) otherTitleTable 0 =
        .ok ([], some .tableStructureChanged) :=
  ⟨by decide, by decide,
    parseTable_header_check parseDecimal (fun _ => 0) otherTitleTable 0
      ⟨"Bindningstid".toList,
        ["60 %".toList, "61-74 %".toList, "75-79 %".toList, "80-85 %".toList]⟩
      [⟨"3 mån".toList, ["3,45 %".toList, "3,55 %".toList, "3,65 %".toList, "3,75 %".toList]⟩]
      (by rfl) (by decide)⟩

/-- C7, the failing input: a document with two located tables.  In the first one
row 0 has the title "Bindningstid", which does not hold "Belåningsgrad" (the row
that does comes second), and a later row has heading cells only.  `parseTable`
panics on `cells[0]` in `parseRows`, before it reaches the header self-check: it
returns neither an error nor a list, and `Crawl` panics with it. -/
theorem parseTable_header_check_panics :
    (QueryAllLocator untitledDocument).1.length = 2 ∧
    ((QueryAllDescendants untitledTable "tr".toList).1.head?.map fun row =>
        getAllTextFromNode (QueryAllDescendants row "td".toList).1.head?) =
      some "Bindningstid".toList ∧
    Contains "Bindningstid".toList "Belåningsgrad".toList = false ∧
    parseTable parseDecimal (fun _ => 0) untitledTable 0 = .error (.indexOutOfRange 0 0) ∧
    (QueryAllLocator untitledDocument).1.map
        (fun n => returnedCount (parseTableOfMatch parseDecimal (fun _ => 0) n 0)) =
      [none, some (8, false)] ∧
    Crawl parseDecimal (fun _ => 0) 0 (.ok untitledDocument) = .error (.indexOutOfRange 0 0) :=
  ⟨by decide, by decide, by decide, by rfl, by decide, by rfl⟩

/-- C8, the failing inputs: `parseTable` panics on `rows[0]` for a table without
rows, `parseRows` and `parseTable` panic on `cells[0]` for a row without a `td`
cell, and `parseTable` panics on `discountBoundaries[i]` for a row with more cells
than there are boundary labels. -/
theorem parseTable_index_out_of_range :
    parseTable parseDecimal (fun _ => 0) emptyTable 0 = .error (.indexOutOfRange 0 0) ∧
      parseRows [element "tr" [element "th" [textNode "Bindningstid"]]] =
        .error (.indexOutOfRange 0 0) ∧
      parseTable parseDecimal (fun _ => 0) headingRowTable 0 = .error (.indexOutOfRange 0 0) ∧
      parseTable parseDecimal (fun _ => 0) longRowTable 0 = .error (.indexOutOfRange 4 4) :=
  ⟨by rfl, by rfl, by rfl, by rfl⟩

/-! ## The crawler -/

/-- C9. When the locator query matches a number of nodes other than two, `Crawl`
returns without sending any record. -/
theorem Crawl_locator_cardinality (ParseFloat : Str → Option Float32) (today : Nat → Date)
    (crawlTime : Time) (doc : Node) (h : (QueryAllLocator doc).1.length ≠ 2) :
    Crawl ParseFloat today crawlTime (.ok doc) = .ok [] := by
  unfold Crawl
  simp only []
  have h2 : (QueryAllLocator doc).2 = none := rfl
  cases hq : QueryAllLocator doc with
  | mk nodes err =>
    rw [hq] at h h2
    simp only [] at h h2
    subst h2
    simp only [ne_eq, h, not_false_eq_true, if_true]

/-- C9, witness: a document with one table, so one match. -/
theorem Crawl_locator_cardinality_witness :
    (QueryAllLocator oneTableDocument).1.length = 1 ∧
      Crawl parseDecimal (fun _ => 0) 0 (.ok oneTableDocument) = .ok [] :=
  ⟨by decide, Crawl_locator_cardinality parseDecimal (fun _ => 0) 0 oneTableDocument (by decide)⟩

/-- C10, counterexample: two tables are located, `parseTable` returns an error on
the first one (a label that is not canonical) and eight records on the second, and
`Crawl` sends the eight records. -/
theorem Crawl_continues_counterexample :
    (QueryAllLocator twoTableDocument).1.map
        (fun n => returnedCount (parseTableOfMatch parseDecimal (fun _ => 0) n 0)) =
      [some (0, true), some (8, false)] ∧
    sentCount (Crawl parseDecimal (fun _ => 0) 0 (.ok twoTableDocument)) = some 8 :=
  ⟨by decide, by decide⟩

/-- Whatever the call of `parseTable` in `Crawl` returns next to an error is the
empty list. -/
theorem parseTableOfMatch_error_nil (ParseFloat : Str → Option Float32) (today : Nat → Date)
    (n : NodePtr) (crawlTime : Time) (sets : List InterestSet) (err : Error)
    (h : parseTableOfMatch ParseFloat today n crawlTime = .ok (sets, some err)) : sets = [] := by
  unfold parseTableOfMatch at h
  cases hp : Parent4 n with
  | error p => rw [hp] at h; cases h
  | ok table =>
    rw [hp] at h
    cases table with
    | none => cases h
    | some t => exact parseTable_error_nil ParseFloat today t.node crawlTime sets err h

/-- C10 (amended). With two located tables on which `parseTable` returns, `Crawl`
sends the records of the first table followed by those of the second; a table on
which `parseTable` returns an error brings none, and does not keep the records of
the other table from being sent. -/
theorem Crawl_two_tables (ParseFloat : Str → Option Float32) (today : Nat → Date)
    (crawlTime : Time) (doc : Node) (node0 node1 : NodePtr)
    (sets0 sets1 : List InterestSet) (err0 err1 : Option Error)
    (hq : (QueryAllLocator doc).1 = [node0, node1])
    (h0 : parseTableOfMatch ParseFloat today node0 crawlTime = .ok (sets0, err0))
    (h1 : parseTableOfMatch ParseFloat (fun k => today (sets0.length + k)) node1 crawlTime =
      .ok (sets1, err1)) :
    Crawl ParseFloat today crawlTime (.ok doc) = .ok (sets0 ++ sets1) ∧
      (err0 ≠ none → sets0 = []) ∧ (err1 ≠ none → sets1 = []) := by
  refine ⟨?_, ?_, ?_⟩
  · have hq2 : QueryAllLocator doc = ([node0, node1], none) := Prod.ext hq rfl
    unfold Crawl
    simp only [hq2, List.length_cons, List.length_nil, ne_eq, not_true_eq_false, if_false]
    rw [h0]
    simp only []
    rw [h1]
  · intro he
    cases err0 with
    | none => exact absurd rfl he
    | some e => exact parseTableOfMatch_error_nil ParseFloat today node0 crawlTime sets0 e h0
  · intro he
    cases err1 with
    | none => exact absurd rfl he
    | some e => exact parseTableOfMatch_error_nil ParseFloat _ node1 crawlTime sets1 e h1

/-- C10, witness: the document with two tables, the first of which has a label
that is not canonical; the eight records of the second table are sent. -/
theorem Crawl_two_tables_witness :
    ∃ sets1, Crawl parseDecimal (fun _ => 0) 0 (.ok twoTableDocument) = .ok ([] ++ sets1) ∧
      sets1.length = 8 :=
  ⟨_, (Crawl_two_tables parseDecimal (fun _ => 0) 0 twoTableDocument _ _ [] _ _ _
    rfl rfl rfl).1, by decide⟩

/-! ## The records of a table -/

/-- What the loop over the cells has appended when it ends without error. -/
theorem parseTableCells_ok_inv (ParseFloat : Str → Option Float32) (today : Nat → Date)
    (crawlTime : Time) (bs : List RatioDiscountBoundary) (term : Term) (fields : List Str) :
    ∀ (i : Nat) (sets out : List InterestSet),
      parseTableCells ParseFloat today crawlTime bs term i fields sets = .ok (.ok out) →
      ∃ new, out = sets ++ new ∧ new.length = fields.length ∧
        ∀ j s, new.get? j = some s →
          ∃ cell b, fields.get? j = some cell ∧ bs.get? (i + j) = some b ∧
            recordOfCell ParseFloat crawlTime term b cell s := by
  induction fields with
  | nil =>
    intro i sets out h
    rw [parseTableCells] at h
    cases h
    exact ⟨[], by simp, rfl, by simp⟩
  | cons c rest ih =>
    intro i sets out h
    rw [parseTableCells] at h
    cases hc : parseInterestRatesFromCellText ParseFloat c with
    | error p => rw [hc] at h; cases h
    | ok r =>
      obtain ⟨nominal, effective, err⟩ := r
      rw [hc] at h
      cases err with
      | some e => cases h
      | none =>
        simp only [] at h
        cases hb : bs.get? i with
        | none => rw [hb] at h; cases h
        | some b =>
          rw [hb] at h
          simp only [] at h
          obtain ⟨new, e, hl, hall⟩ := ih (i + 1) _ out h
          refine ⟨{ Bank := DanskeBankName, NominalRate := nominal, EffectiveRate := effective,
                    Term := term, Type_ := TypeRatioDiscounted,
                    RatioDiscountBoundaries := some b, UnionDiscount := false,
                    ChangedOn := today sets.length, LastCrawledAt := crawlTime } :: new,
            by rw [e]; simp, by simp [hl], ?_⟩
          intro j s hj
          cases j with
          | zero =>
            simp only [List.get?_cons_zero, Option.some.injEq] at hj
            subst hj
            exact ⟨c, b, rfl, hb, rfl, rfl, rfl, rfl, rfl, rfl, hc⟩
          | succ j =>
            obtain ⟨cell, b2, h1, h2, h3⟩ := hall j s (by simpa using hj)
            exact ⟨cell, b2, by simpa using h1, by rw [← h2]; congr 1; omega, h3⟩

/-- What the loop over the data rows has appended when it ends without error: the
records of the rows, one row after the other. -/
theorem parseTableRows_ok_inv (ParseFloat : Str → Option Float32) (today : Nat → Date)
    (crawlTime : Time) (bs : List RatioDiscountBoundary) (rows : List rowStruct) :
    ∀ (sets out : List InterestSet),
      parseTableRows ParseFloat today crawlTime bs rows sets = .ok (.ok out) →
      ∃ perRow : List (List InterestSet), out = sets ++ perRow.flatten ∧
        List.Forall₂ (recordsOfRow ParseFloat crawlTime bs) rows perRow := by
  induction rows with
  | nil =>
    intro sets out h
    rw [parseTableRows] at h
    cases h
    exact ⟨[], by simp, List.Forall₂.nil⟩
  | cons row rest ih =>
    intro sets out h
    rw [parseTableRows] at h
    cases ht : parseTerm row.title with
    | mk term err =>
      rw [ht] at h
      cases err with
      | some e => cases h
      | none =>
        simp only [] at h
        cases hc : parseTableCells ParseFloat today crawlTime bs term 0 row.fields sets with
        | error p => rw [hc] at h; cases h
        | ok r =>
          rw [hc] at h
          cases r with
          | error e => cases h
          | ok sets2 =>
            simp only [] at h
            obtain ⟨new, e1, hl, hall⟩ := parseTableCells_ok_inv ParseFloat today crawlTime bs
              term row.fields 0 sets sets2 hc
            obtain ⟨perRow, e2, hf⟩ := ih sets2 out h
            refine ⟨new :: perRow, by rw [e2, e1]; simp, List.Forall₂.cons ⟨hl, term, ht, ?_⟩ hf⟩
            intro j s hj
            obtain ⟨cell, b, h1, h2, h3⟩ := hall j s hj
            exact ⟨cell, b, h1, by simpa using h2, h3⟩

/-- What a call of `parseTable` that returns no error has gone through. -/
theorem parseTable_ok_inv (ParseFloat : Str → Option Float32) (today : Nat → Date)
    (table : Node) (crawlTime : Time) (sets : List InterestSet)
    (h : parseTable ParseFloat today table crawlTime = .ok (sets, none)) :
    ∃ header data bs,
      parseRows (QueryAllDescendants table "tr".toList).1 = .ok (header :: data, none) ∧
      Contains header.title "Belåningsgrad".toList = true ∧
      parseDiscountBoundaries header.fields = (bs, none) ∧
      parseTableRows ParseFloat today crawlTime bs data [] = .ok (.ok sets) := by
  unfold parseTable at h
  unfold QueryAllDescendants at h ⊢
  simp only [] at h ⊢
  split at h
  · cases h
  · cases h
  · next rows hrows =>
    split at h
    · cases h
    · next row0 rows1 =>
      split at h
      · cases h
      · next htitle =>
        split at h
        · cases h
        · next bs hb =>
          split at h
          · cases h
          · cases h
          · next out hout =>
            cases h
            exact ⟨row0, rows1, bs, hrows, by simpa using htitle, hb, hout⟩

theorem flatten_get?_uniform {α : Type} (k : Nat) (L : List (List α)) :
    (∀ l ∈ L, l.length = k) → ∀ r c, c < k →
      L.flatten.get? (r * k + c) = (L.get? r).bind fun l => l.get? c := by
  induction L with
  | nil => intro _ r c _; simp
  | cons l rest ih =>
    intro hk r c hc
    have hl : l.length = k := hk l (by simp)
    cases r with
    | zero =>
      simp only [List.flatten_cons, Nat.zero_mul, Nat.zero_add, List.get?_cons_zero,
        Option.some_bind]
      rw [List.get?_eq_getElem?, List.get?_eq_getElem?, List.getElem?_append_left (by omega)]
    | succ r =>
      have e : (r + 1) * k + c = l.length + (r * k + c) := by rw [hl, Nat.succ_mul]; omega
      rw [List.flatten_cons, e, List.get?_eq_getElem?, List.getElem?_append_right (by omega),
        ← List.get?_eq_getElem?]
      simp only [Nat.add_sub_cancel_left, List.get?_cons_succ]
      exact ih (fun l hl => hk l (by simp [hl])) r c hc

theorem flatten_length_uniform {α : Type} (k : Nat) (L : List (List α))
    (hk : ∀ l ∈ L, l.length = k) : L.flatten.length = L.length * k := by
  induction L with
  | nil => simp
  | cons l rest ih =>
    rw [List.flatten_cons, List.length_append, hk l (by simp),
      ih fun l hl => hk l (by simp [hl]), List.length_cons, Nat.succ_mul]
    omega

theorem forall₂_get? {α β : Type} {R : α → β → Prop} {as : List α} {bs : List β}
    (h : List.Forall₂ R as bs) :
    ∀ r a, as.get? r = some a → ∃ b, bs.get? r = some b ∧ R a b := by
  induction h with
  | nil => intro r a h; simp at h
  | cons hab _ ih =>
    intro r a h
    cases r with
    | zero =>
      simp only [List.get?_cons_zero, Option.some.injEq] at h
      subst h
      exact ⟨_, rfl, hab⟩
    | succ r => exact ih r a (by simpa using h)

theorem parseDiscountBoundaries_map {fields : List Str} {bs : List RatioDiscountBoundary}
    (h : parseDiscountBoundaries fields = (bs, none)) :
    bs.map some = fields.map boundaryOfField := by
  cases hall : fields.all (fun f => (boundaryOfField f).isSome) with
  | false =>
    have := (parseDiscountBoundariesLoop_other fields [] hall).2
    rw [parseDiscountBoundaries] at h
    rw [h] at this; exact absurd rfl this
  | true =>
    obtain ⟨bs2, e, hm⟩ := parseDiscountBoundariesLoop_canonical fields [] hall
    rw [parseDiscountBoundaries, e] at h
    cases h; exact hm

/-- C11. In the list a successful `parseTable` returns for a header of k labels and
data rows of k cells each, the record of index r*k + c carries the term parsed from
the title of data row r and the boundary parsed from header column c; and `Crawl`
sends the records of the first located table followed by those of the second. -/
theorem parseTable_record_order :
    (∀ (ParseFloat : Str → Option Float32) (today : Nat → Date) (table : Node)
        (crawlTime : Time) (header : rowStruct) (data : List rowStruct)
        (sets : List InterestSet) (k : Nat),
      parseRows (QueryAllDescendants table "tr".toList).1 = .ok (header :: data, none) →
      parseTable ParseFloat today table crawlTime = .ok (sets, none) →
      header.fields.length = k → (∀ row ∈ data, row.fields.length = k) →
      sets.length = data.length * k ∧
        ∀ r c row label, data.get? r = some row → header.fields.get? c = some label →
          ∃ s, sets.get? (r * k + c) = some s ∧ parseTerm row.title = (s.Term, none) ∧
            s.RatioDiscountBoundaries ≠ none ∧
            s.RatioDiscountBoundaries = boundaryOfField label) ∧
    (∀ (ParseFloat : Str → Option Float32) (today : Nat → Date) (crawlTime : Time)
        (doc : Node) (node0 node1 : NodePtr) (sets0 sets1 : List InterestSet)
        (err0 err1 : Option Error),
      (QueryAllLocator doc).1 = [node0, node1] →
      parseTableOfMatch ParseFloat today node0 crawlTime = .ok (sets0, err0) →
      parseTableOfMatch ParseFloat (fun k => today (sets0.length + k)) node1 crawlTime =
        .ok (sets1, err1) →
      Crawl ParseFloat today crawlTime (.ok doc) = .ok (sets0 ++ sets1)) := by
  constructor
  · intro ParseFloat today table crawlTime header data sets k hrows hok hk hdata
    obtain ⟨header2, data2, bs, hrows2, -, hb, hloop⟩ :=
      parseTable_ok_inv ParseFloat today table crawlTime sets hok
    rw [hrows] at hrows2
    cases hrows2
    obtain ⟨perRow, e, hf⟩ := parseTableRows_ok_inv ParseFloat today crawlTime bs data [] sets hloop
    rw [List.nil_append] at e
    have hlen : ∀ recs ∈ perRow, recs.length = k := by
      intro recs hrecs
      obtain ⟨i, hi⟩ := List.get?_of_mem hrecs
      obtain ⟨row, hrow, hR⟩ := forall₂_get? hf.flip i recs hi
      rw [hR.1, hdata row (List.get?_mem hrow)]
    refine ⟨by rw [e, flatten_length_uniform k perRow hlen, hf.length_eq], ?_⟩
    intro r c row label hr hc
    have hck : c < k := by
      rw [← hk]; exact (List.get?_eq_some.mp hc).1
    obtain ⟨recs, hrecs, hl, term, hterm, hcells⟩ := forall₂_get? hf r row hr
    have hcr : c < recs.length := by rw [hlen recs (List.get?_mem hrecs)]; exact hck
    refine ⟨recs.get ⟨c, hcr⟩, ?_, ?_⟩
    · rw [e, flatten_get?_uniform k perRow hlen r c hck, hrecs]
      exact List.get?_eq_get hcr
    · obtain ⟨cell, b, -, hbc, hrec⟩ := hcells c _ (List.get?_eq_get hcr)
      have hbm := congrArg (fun l => l.get? c) (parseDiscountBoundaries_map hb)
      simp only [List.get?_eq_getElem?, List.getElem?_map] at hbm hbc hc
      simp only [hbc, hc, Option.map_some'] at hbm
      refine ⟨by rw [hterm, hrec.2.1], by rw [hrec.2.2.2.1]; simp, ?_⟩
      rw [hrec.2.2.2.1]; exact Option.some.inj hbm
  · intro ParseFloat today crawlTime doc node0 node1 sets0 sets1 err0 err1 hq h0 h1
    have hq2 : QueryAllLocator doc = ([node0, node1], none) := Prod.ext hq rfl
    unfold Crawl
    simp only [hq2, List.length_cons, List.length_nil, ne_eq, not_true_eq_false, if_false]
    rw [h0]
    simp only []
    rw [h1]

/-- Every record a successful `parseTable` returns is built for a cell of a data
row, under the boundary of the column of the cell, with the term of the row. -/
theorem parseTable_record_source (ParseFloat : Str → Option Float32) (today : Nat → Date)
    (table : Node) (crawlTime : Time) (sets : List InterestSet)
    (h : parseTable ParseFloat today table crawlTime = .ok (sets, none)) :
    ∃ header data bs,
      parseRows (QueryAllDescendants table "tr".toList).1 = .ok (header :: data, none) ∧
      parseDiscountBoundaries header.fields = (bs, none) ∧
      ∀ s ∈ sets, ∃ row ∈ data, ∃ j cell b term,
        row.fields.get? j = some cell ∧ bs.get? j = some b ∧
          parseTerm row.title = (term, none) ∧
          recordOfCell ParseFloat crawlTime term b cell s := by
  obtain ⟨header, data, bs, hrows, -, hb, hloop⟩ :=
    parseTable_ok_inv ParseFloat today table crawlTime sets h
  obtain ⟨perRow, e, hf⟩ := parseTableRows_ok_inv ParseFloat today crawlTime bs data [] sets hloop
  rw [List.nil_append] at e
  refine ⟨header, data, bs, hrows, hb, ?_⟩
  intro s hs
  rw [e] at hs
  obtain ⟨recs, hrecs, hsr⟩ := List.mem_flatten.mp hs
  obtain ⟨i, hi⟩ := List.get?_of_mem hrecs
  obtain ⟨row, hrow, -, term, hterm, hcells⟩ := forall₂_get? hf.flip i recs hi
  obtain ⟨j, hj⟩ := List.get?_of_mem hsr
  obtain ⟨cell, b, h1, h2, h3⟩ := hcells j s hj
  exact ⟨row, List.get?_mem hrow, j, cell, b, term, h1, h2, hterm, h3⟩

/-- The two rates of a record are the number `ParseFloat` reads from the token of
the cell. -/
theorem recordOfCell_rates {ParseFloat : Str → Option Float32} {crawlTime : Time}
    {term : Term} {b : RatioDiscountBoundary} {cell : Str} {s : InterestSet}
    (h : recordOfCell ParseFloat crawlTime term b cell s) :
    ParseFloat (rateToken cell) = some s.NominalRate ∧ s.EffectiveRate = s.NominalRate := by
  have ho := parseInterestRatesFromCellText_outcome ParseFloat cell
  rw [h.2.2.2.2.2.2] at ho
  unfold rateToken
  cases hp : ParseFloat (ReplaceAll (firstPart (untrimmed cell)) ',' ".".toList) with
  | none => rw [hp] at ho; simp [cellOutcome] at ho
  | some v =>
    rw [hp] at ho
    simp only [cellOutcome, Option.isSome_none, Except.ok.injEq, Prod.mk.injEq] at ho
    exact ⟨by rw [ho.1], by rw [ho.1, ho.2.1]⟩

/-- C12, counterexample: the first cell of the data row is `-1,50 %`; `parseTable`
returns no error and a first record with a negative nominal rate. -/
theorem parseTable_negative_rate_counterexample :
    ∃ sets s, parseTable parseDecimal (fun _ => 0) negativeRateTable 0 = .ok (sets, none) ∧
      sets.get? 0 = some s ∧ s.NominalRate < 0 ∧ s.EffectiveRate < 0 := by
  refine ⟨_, _, rfl, rfl, ?_, ?_⟩
  · show (-1 : ℚ) * ((150 : ℕ) : ℚ) / 10 ^ 2 < 0
    norm_num
  · show (-1 : ℚ) * ((150 : ℕ) : ℚ) / 10 ^ 2 < 0
    norm_num

/-- C12 (amended). The rates of the records are not checked for their sign: every
record `parseTable` returns has, for both rates, the number `ParseFloat` reads from
the first token of a cell of a data row.  The rates are at least zero when, and only
when, that number is. -/
theorem parseTable_rates_unchecked (ParseFloat : Str → Option Float32) (today : Nat → Date)
    (table : Node) (crawlTime : Time) (sets : List InterestSet) (err : Option Error)
    (h : parseTable ParseFloat today table crawlTime = .ok (sets, err)) :
    ∀ s ∈ sets, ∃ header data,
      parseRows (QueryAllDescendants table "tr".toList).1 = .ok (header :: data, none) ∧
      ∃ row ∈ data, ∃ cell ∈ row.fields, ∃ value,
        ParseFloat (rateToken cell) = some value ∧
          s.NominalRate = value ∧ s.EffectiveRate = value ∧
          (0 ≤ s.NominalRate ∧ 0 ≤ s.EffectiveRate ↔ 0 ≤ value) := by
  intro s hs
  cases err with
  | some e =>
    rw [parseTable_error_nil ParseFloat today table crawlTime sets e h] at hs
    cases hs
  | none =>
    obtain ⟨header, data, bs, hrows, -, hall⟩ :=
      parseTable_record_source ParseFloat today table crawlTime sets h
    obtain ⟨row, hrow, j, cell, b, term, hcell, -, -, hrec⟩ := hall s hs
    obtain ⟨hv, he⟩ := recordOfCell_rates hrec
    exact ⟨header, data, hrows, row, hrow, cell, List.get?_mem hcell, s.NominalRate, hv, rfl,
      he, by rw [he]; simp⟩

/-- C11, witness: in the example table, of four columns, the record of index
1 * 4 + 2 has the term of the row "1 år" and the boundary of the label "75-79 %";
and `Crawl` sends, for the document with two tables, the records of the first table
followed by those of the second. -/
theorem parseTable_record_order_witness :
    (∃ sets, parseTable parseDecimal (fun _ => 0) exampleTable 0 = .ok (sets, none) ∧
      sets.length = 2 * 4 ∧
      ∃ s, sets.get? (1 * 4 + 2) = some s ∧ parseTerm "1 år".toList = (s.Term, none) ∧
        s.RatioDiscountBoundaries ≠ none ∧
        s.RatioDiscountBoundaries = boundaryOfField "75-79 %".toList) ∧
    (∃ sets0 sets1,
      (QueryAllLocator standardAndUnionDocument).1.map
          (fun n => parseTableOfMatch parseDecimal (fun _ => 0) n 0) =
        [.ok (sets0, none), .ok (sets1, none)] ∧
      Crawl parseDecimal (fun _ => 0) 0 (.ok standardAndUnionDocument) = .ok (sets0 ++ sets1)) :=
  have h := parseTable_record_order.1 parseDecimal (fun _ => 0) exampleTable 0
    ⟨"Belåningsgrad".toList, ["60 %".toList, "61-74 %".toList, "75-79 %".toList, "80-85 %".toList]⟩
    [⟨"3 mån".toList, ["3,45 % (3,51 %)".toList, "3,55 %".toList, "3,65 %".toList, "3,75 %*".toList]⟩,
     ⟨"1 år".toList, ["3,05 %".toList, "3,15 %".toList, "3,25 %".toList, "3,35 %".toList]⟩]
    _ 4 (by rfl) rfl (by decide) (by decide)
  ⟨⟨_, rfl, h.1, h.2 1 2 _ _ rfl rfl⟩,
   ⟨_, _, rfl, parseTable_record_order.2 parseDecimal (fun _ => 0) 0 standardAndUnionDocument
      _ _ _ _ none none rfl rfl rfl⟩⟩

/-- C12, witness: the first record of the table with the cell `-1,50 %`. -/
theorem parseTable_rates_unchecked_witness :
    ∃ sets s, parseTable parseDecimal (fun _ => 0) negativeRateTable 0 = .ok (sets, none) ∧
      sets.get? 0 = some s ∧
      ∃ header data,
        parseRows (QueryAllDescendants negativeRateTable "tr".toList).1 =
          .ok (header :: data, none) ∧
        ∃ row ∈ data, ∃ cell ∈ row.fields, ∃ value,
          parseDecimal (rateToken cell) = some value ∧
            s.NominalRate = value ∧ s.EffectiveRate = value ∧
            (0 ≤ s.NominalRate ∧ 0 ≤ s.EffectiveRate ↔ 0 ≤ value) :=
  ⟨_, _, rfl, rfl,
    parseTable_rates_unchecked parseDecimal (fun _ => 0) negativeRateTable 0 _ none rfl _
      (@List.get?_mem _ _ 0 _ rfl)⟩

/-- Every record the call of `parseTable` in `Crawl` returns is built for some cell,
with the crawl time given to the call. -/
theorem parseTableOfMatch_record (ParseFloat : Str → Option Float32) (today : Nat → Date)
    (n : NodePtr) (crawlTime : Time) (sets : List InterestSet) (err : Option Error)
    (h : parseTableOfMatch ParseFloat today n crawlTime = .ok (sets, err)) :
    ∀ s ∈ sets, ∃ term b cell, recordOfCell ParseFloat crawlTime term b cell s := by
  intro s hs
  cases err with
  | some e =>
    rw [parseTableOfMatch_error_nil ParseFloat today n crawlTime sets e h] at hs
    cases hs
  | none =>
    unfold parseTableOfMatch at h
    cases hp : Parent4 n with
    | error p => rw [hp] at h; cases h
    | ok table =>
      rw [hp] at h
      cases table with
      | none => cases h
      | some t =>
        obtain ⟨header, data, bs, -, -, hall⟩ :=
          parseTable_record_source ParseFloat today t.node crawlTime sets h
        obtain ⟨row, -, j, cell, b, term, -, -, -, hrec⟩ := hall s hs
        exact ⟨term, b, cell, hrec⟩

/-- Every record `Crawl` sends is built for some cell, with the crawl time of the
run. -/
theorem Crawl_record (ParseFloat : Str → Option Float32) (today : Nat → Date)
    (crawlTime : Time) (loaded : Except Error Node) (sets : List InterestSet)
    (h : Crawl ParseFloat today crawlTime loaded = .ok sets) :
    ∀ s ∈ sets, ∃ term b cell, recordOfCell ParseFloat crawlTime term b cell s := by
  unfold Crawl at h
  split at h
  · cases h; simp
  · split at h
    · cases h; simp
    · split at h
      · cases h; simp
      · split at h
        · split at h
          · cases h
          · next sets0 err0 h0 =>
            split at h
            · cases h
            · next sets1 err1 h1 =>
              cases h
              intro s hs
              rcases List.mem_append.mp hs with hs | hs
              · exact parseTableOfMatch_record ParseFloat today _ crawlTime sets0 err0 h0 s hs
              · exact parseTableOfMatch_record ParseFloat _ _ crawlTime sets1 err1 h1 s hs
        · cases h; simp

/-- C13. Every record one run of `Crawl` sends, from either table, carries the same
`LastCrawledAt`: the crawl time read once at the start of the run and given to both
calls of `parseTable`. -/
theorem Crawl_lastCrawledAt (ParseFloat : Str → Option Float32) (today : Nat → Date)
    (crawlTime : Time) (loaded : Except Error Node) (sets : List InterestSet)
    (h : Crawl ParseFloat today crawlTime loaded = .ok sets) :
    ∀ s ∈ sets, s.LastCrawledAt = crawlTime := by
  intro s hs
  obtain ⟨term, b, cell, hrec⟩ := Crawl_record ParseFloat today crawlTime loaded sets h s hs
  exact hrec.2.2.2.2.2.1

/-- C13, witness: the sixteen records of the document with two tables, at the crawl
time 7. -/
theorem Crawl_lastCrawledAt_witness :
    ∃ sets, Crawl parseDecimal (fun _ => 0) 7 (.ok standardAndUnionDocument) = .ok sets ∧
      sets.length = 16 ∧ ∀ s ∈ sets, s.LastCrawledAt = 7 :=
  ⟨_, rfl, by decide,
    Crawl_lastCrawledAt parseDecimal (fun _ => 0) 7 (.ok standardAndUnionDocument) _ rfl⟩

/-! ## The service -/

theorem recvLoop_calls {σ : Type} (s : Store σ) (c : List InterestSet) :
    ∀ st : RecvState σ,
      (recvLoop s c st).calls = st.calls ++ c ∧
        (recvLoop s c st).store =
          c.foldl (fun store set => (s.UpsertInterestSet store set).1) st.store := by
  induction c with
  | nil => intro st; simp [recvLoop]
  | cons set rest ih =>
    intro st
    rw [recvLoop]
    cases h : s.UpsertInterestSet st.store set with
    | mk store err =>
      cases err with
      | some e =>
        simp only []
        rw [(ih _).1, (ih _).2]
        simp [h]
      | none =>
        simp only []
        rw [(ih _).1, (ih _).2]
        simp [h]

/-- C14. For every sequence of records received from the channel and every store,
whatever the calls return, `recv` calls `UpsertInterestSet` once for each record, in
the order of reception: the arguments of the calls are the records received, and the
store ends in the state the calls lead to one after the other.  So it is for a store
that fails on every call and for one that fails on every second call. -/
theorem recv_calls_every_record {σ : Type} (s : Store σ) (store : σ) (c : List InterestSet) :
    (recv s store c).calls = c ∧
      (recv s store c).store =
        c.foldl (fun store set => (s.UpsertInterestSet store set).1) store ∧
      (recv failingStore 0 c).calls = c ∧ (recv failingStore 0 c).store = c.length ∧
      (recv alternatingStore 0 c).calls = c ∧ (recv alternatingStore 0 c).store = c.length := by
  have hcount : ∀ (f : Nat → InterestSet → Nat) (_ : ∀ n x, f n x = n + 1) (l : List InterestSet)
      (n : Nat), l.foldl f n = n + l.length := by
    intro f hf l
    induction l with
    | nil => intro n; rfl
    | cons x xs ih => intro n; rw [List.foldl_cons, ih, hf, List.length_cons]; omega
  refine ⟨?_, ?_, ?_, ?_, ?_, ?_⟩
  · simpa [recv] using (recvLoop_calls s c _).1
  · simpa [recv] using (recvLoop_calls s c _).2
  · simpa [recv] using (recvLoop_calls failingStore c _).1
  · rw [recv, (recvLoop_calls failingStore c _).2]
    exact (hcount _ (fun _ _ => rfl) c 0).trans (Nat.zero_add _)
  · simpa [recv] using (recvLoop_calls alternatingStore c _).1
  · rw [recv, (recvLoop_calls alternatingStore c _).2]
    exact (hcount _ (fun _ _ => rfl) c 0).trans (Nat.zero_add _)

/-! ## Runs of `Service.Crawl` -/

theorem countP_set_some {α : Type} (l : List (Option α)) :
    ∀ (i : Nat) (a b : α), l.get? i = some (some a) →
      (l.set i (some b)).countP Option.isSome = l.countP Option.isSome := by
  induction l with
  | nil => intro i a b h; simp at h
  | cons x xs ih =>
    intro i a b h
    cases i with
    | zero =>
      simp only [List.get?_cons_zero, Option.some.injEq] at h
      subst h
      simp [List.countP_cons]
    | succ i =>
      simp only [List.get?_cons_succ] at h
      simp [List.countP_cons, ih i a b h]

theorem countP_set_none {α : Type} (l : List (Option α)) :
    ∀ (i : Nat) (a : α), l.get? i = some (some a) →
      (l.set i none).countP Option.isSome + 1 = l.countP Option.isSome := by
  induction l with
  | nil => intro i a h; simp at h
  | cons x xs ih =>
    intro i a h
    cases i with
    | zero =>
      simp only [List.get?_cons_zero, Option.some.injEq] at h
      subst h
      simp [List.countP_cons]
    | succ i =>
      simp only [List.get?_cons_succ] at h
      have := ih i a h
      simp only [List.set_cons_succ, List.countP_cons]
      omega

theorem countP_pos_of_get? {α : Type} (l : List (Option α)) (i : Nat) (a : α)
    (h : l.get? i = some (some a)) : 0 < l.countP Option.isSome :=
  List.countP_pos_iff.mpr ⟨some a, List.get?_mem h, rfl⟩

theorem RunState.invariant_start (crawlers : List (List InterestSet)) :
    (RunState.start crawlers).invariant :=
  ⟨rfl, rfl, rfl⟩

/-- A step of a goroutine keeps the invariant. -/
theorem RunState.invariant_step (st st2 : RunState) (t : Thread) (hinv : st.invariant)
    (h : st.step t = some st2) : st2.invariant := by
  obtain ⟨hwg, hsend, hpc⟩ := hinv
  cases t with
  | service =>
    unfold RunState.step at h
    simp only [] at h
    cases hp : st.pc with
    | starting =>
      rw [hp] at h hpc
      simp only [] at h hpc
      cases hc : st.crawlers with
      | nil =>
        rw [hc] at h
        cases h
        exact ⟨hwg, hsend, hpc, rfl⟩
      | cons c rest =>
        rw [hc] at h
        cases h
        exact ⟨by simp [hwg], hsend, hpc⟩
    | waiting =>
      rw [hp] at h hpc
      simp only [] at h hpc
      split at h
      · next h0 =>
        cases h
        exact ⟨hwg, hsend, hpc.1, hpc.2, h0⟩
      · cases h
    | closing =>
      rw [hp] at h hpc
      simp only [] at h hpc
      cases h
      exact ⟨hwg, hsend, by simp [hpc.1], hpc.2.1, hpc.2.2⟩
    | returned =>
      rw [hp] at h
      cases h
  | producer i =>
    unfold RunState.step at h
    simp only [] at h
    have hrunning : ∀ a, st.producers.get? i = some (some a) →
        st.closes = 0 ∧ (st.pc = .starting ∨ st.pc = .waiting) := by
      intro a ha
      have hpos := countP_pos_of_get? st.producers i a ha
      cases hp : st.pc with
      | starting => rw [hp] at hpc; exact ⟨hpc, Or.inl rfl⟩
      | waiting => rw [hp] at hpc; exact ⟨hpc.1, Or.inr rfl⟩
      | closing => rw [hp] at hpc; have := hpc.2.2; omega
      | returned => rw [hp] at hpc; have := hpc.2.2; omega
    split at h
    · next set rest hget =>
      obtain ⟨hcl, hrun⟩ := hrunning _ hget
      rw [if_neg (by omega)] at h
      split at h
      · cases h
        refine ⟨?_, hsend, hpc⟩
        show st.wg = (st.producers.set i (some rest)).countP Option.isSome
        rw [countP_set_some _ i _ rest hget]; exact hwg
      · cases h
    · next hget =>
      obtain ⟨hcl, hrun⟩ := hrunning _ hget
      cases h
      have hc := countP_set_none st.producers i _ hget
      refine ⟨?_, hsend, ?_⟩
      · show st.wg - 1 = (st.producers.set i none).countP Option.isSome
        omega
      · rcases hrun with hp | hp
        · rw [hp] at hpc ⊢; exact hpc
        · rw [hp] at hpc ⊢; exact hpc
    · cases h
  | receiver =>
    unfold RunState.step at h
    simp only [] at h
    split at h
    · cases h; exact ⟨hwg, hsend, hpc⟩
    · split at h
      · cases h; exact ⟨hwg, hsend, hpc⟩
      · cases h
    · cases h

/-- Every state of every run has the invariant. -/
theorem RunState.invariant_run (schedule : List Thread) :
    ∀ st st2 : RunState, st.invariant → RunState.run schedule st = some st2 → st2.invariant := by
  induction schedule with
  | nil => intro st st2 hinv h; cases h; exact hinv
  | cons t rest ih =>
    intro st st2 hinv h
    rw [RunState.run] at h
    cases hs : st.step t with
    | none => rw [hs] at h; cases h
    | some st1 =>
      rw [hs] at h
      exact ih st1 st2 (RunState.invariant_step st st1 t hinv hs) h

/-- A step neither adds nor drops a crawler: each is to be started or is a
producer. -/
theorem RunState.step_count (st st2 : RunState) (t : Thread) (h : st.step t = some st2) :
    st2.producers.length + st2.crawlers.length = st.producers.length + st.crawlers.length := by
  cases t with
  | service =>
    unfold RunState.step at h
    simp only [] at h
    split at h
    · split at h
      · next c rest hc => cases h; simp [hc]; omega
      · cases h; rfl
    · split at h
      · cases h; rfl
      · cases h
    · cases h; rfl
    · cases h
  | producer i =>
    unfold RunState.step at h
    simp only [] at h
    split at h
    · split at h
      · cases h; rfl
      · split at h
        · cases h; simp
        · cases h
    · cases h; simp
    · cases h
  | receiver =>
    unfold RunState.step at h
    simp only [] at h
    split at h
    · cases h; rfl
    · split at h
      · cases h; rfl
      · cases h
    · cases h

theorem RunState.run_count (schedule : List Thread) :
    ∀ st st2 : RunState, RunState.run schedule st = some st2 →
      st2.producers.length + st2.crawlers.length = st.producers.length + st.crawlers.length := by
  induction schedule with
  | nil => intro st st2 h; cases h; rfl
  | cons t rest ih =>
    intro st st2 h
    rw [RunState.run] at h
    cases hs : st.step t with
    | none => rw [hs] at h; cases h
    | some st1 =>
      rw [hs] at h
      rw [ih st1 st2 h, RunState.step_count st st1 t hs]

/-- C15, the failing run: one crawler that sends one record.  The producer is
started, then the receiver; the producer hands the record over and returns; `wg.Wait`
lets `Service.Crawl` go on, which closes the channel and returns while the receiver
still holds the record: `UpsertInterestSet` has not been called for it. -/
theorem Service_Crawl_returns_before_upsert (set : InterestSet) :
    (RunState.run
        [.service, .service, .producer 0, .producer 0, .service, .service]
        (RunState.start [[set]])).map
      (fun st => (st.pc, st.receiver, st.calls, st.producers, st.closes)) =
      some (.returned, .upserting set, [], [none], 1) := by
  rfl

/-- C16. In every run of `Service.Crawl`, whatever the crawlers, none included, and
whatever the order in which the goroutines move: the channel is closed once at most,
and once exactly when `Service.Crawl` has returned; when it is closed every crawler
has been started and has returned, and the counter of the wait group is zero; no
producer sends on the closed channel. -/
theorem Service_Crawl_closes_once (crawlers : List (List InterestSet))
    (schedule : List Thread) (st : RunState)
    (h : RunState.run schedule (RunState.start crawlers) = some st) :
    st.closes ≤ 1 ∧ (st.pc = .returned ↔ st.closes = 1) ∧
      (st.closes = 1 →
        st.wg = 0 ∧ st.producers.length = crawlers.length ∧ ∀ p ∈ st.producers, p = none) ∧
      st.sendOnClosed = false := by
  obtain ⟨hwg, hsend, hpc⟩ :=
    RunState.invariant_run schedule _ st (RunState.invariant_start crawlers) h
  have hcount := RunState.run_count schedule _ st h
  have hnone : st.wg = 0 → ∀ p ∈ st.producers, p = none := by
    intro h0 p hp
    cases p with
    | none => rfl
    | some a =>
      have : 0 < st.producers.countP Option.isSome := List.countP_pos_iff.mpr ⟨some a, hp, rfl⟩
      omega
  cases hp : st.pc with
  | starting => rw [hp] at hpc; simp only [] at hpc; simp [hpc, hsend]
  | waiting => rw [hp] at hpc; simp only [] at hpc; simp [hpc.1, hsend]
  | closing => rw [hp] at hpc; simp only [] at hpc; simp [hpc.1, hsend]
  | returned =>
    rw [hp] at hpc
    simp only [] at hpc
    obtain ⟨hc, hcr, h0⟩ := hpc
    refine ⟨by omega, by simp [hc], fun _ => ⟨h0, ?_, hnone h0⟩, hsend⟩
    rw [hcr] at hcount
    simpa [RunState.start] using hcount

/-- C16, witness: without any crawler, the receiver is started, `wg.Wait` returns at
once, and the channel is closed once. -/
theorem Service_Crawl_closes_once_witness :
    ∃ st, RunState.run [.service, .service, .service] (RunState.start []) = some st ∧
      st.pc = .returned ∧
      st.closes ≤ 1 ∧ (st.pc = .returned ↔ st.closes = 1) ∧
      (st.closes = 1 →
        st.wg = 0 ∧ st.producers.length = ([] : List (List InterestSet)).length ∧
          ∀ p ∈ st.producers, p = none) ∧
      st.sendOnClosed = false :=
  ⟨_, rfl, rfl,
    Service_Crawl_closes_once [] [.service, .service, .service] _ rfl⟩

/-! ## The rates of a cell -/

theorem cellOutcome_rates {r : Except Panic (Float32 × Float32 × Option Error)}
    {nominal effective : Float32}
    (h : cellOutcome r = .ok (nominal, effective, false)) : r = .ok (nominal, effective, none) := by
  cases r with
  | error p => cases h
  | ok v =>
    obtain ⟨n, e, err⟩ := v
    cases err with
    | none => simp only [cellOutcome, Option.isSome_none, Except.ok.injEq, Prod.mk.injEq] at h
              rw [h.1, h.2.1]
    | some x => simp [cellOutcome] at h

/-- The token handed to `ParseFloat` is made from the first part of the split. -/
theorem rateToken_eq (cell : Str) :
    ∃ parts, Split (sanitizedCellText cell) ' ' = firstPart (untrimmed cell) :: parts :=
  Split_head (sanitizedCellText cell) ' '

/-- C17. On a cell text for which `parseInterestRatesFromCellText` returns rates, the
effective rate is the nominal rate, both the number `ParseFloat` reads from the first
part of the split of the sanitised text, `,` replaced by `.`; what follows the first
part has no influence: every cell text with the same first part gives the same
rates. -/
theorem parseInterestRatesFromCellText_effective_eq_nominal
    (ParseFloat : Str → Option Float32) (cell : Str) (nominal effective : Float32)
    (h : parseInterestRatesFromCellText ParseFloat cell = .ok (nominal, effective, none)) :
    effective = nominal ∧
      (∃ part0 parts, Split (sanitizedCellText cell) ' ' = part0 :: parts ∧
        ParseFloat (ReplaceAll part0 ',' ".".toList) = some nominal ∧
        ∀ cell2 parts2, Split (sanitizedCellText cell2) ' ' = part0 :: parts2 →
          parseInterestRatesFromCellText ParseFloat cell2 = .ok (nominal, nominal, none)) := by
  have ho := parseInterestRatesFromCellText_outcome ParseFloat cell
  rw [h] at ho
  obtain ⟨parts, hparts⟩ := rateToken_eq cell
  cases hp : ParseFloat (ReplaceAll (firstPart (untrimmed cell)) ',' ".".toList) with
  | none => rw [hp] at ho; simp [cellOutcome] at ho
  | some v =>
    rw [hp] at ho
    simp only [cellOutcome, Option.isSome_none, Except.ok.injEq, Prod.mk.injEq] at ho
    obtain ⟨hn, he, -⟩ := ho
    refine ⟨by rw [he, hn], firstPart (untrimmed cell), parts, hparts, by rw [hp, hn], ?_⟩
    intro cell2 parts2 h2
    obtain ⟨parts3, h3⟩ := rateToken_eq cell2
    rw [h2] at h3
    have e : firstPart (untrimmed cell2) = firstPart (untrimmed cell) :=
      (List.cons.inj h3).1.symm
    apply cellOutcome_rates
    rw [parseInterestRatesFromCellText_outcome, e, hp, hn]

/-- C17, witness: the cell `3,45 % (3,51 %)` gives twice the rate of `3,45`, and so
does the cell `3,45 %`. -/
theorem parseInterestRatesFromCellText_effective_eq_nominal_witness :
    ∃ nominal effective,
      parseInterestRatesFromCellText parseDecimal "3,45 % (3,51 %)".toList =
        .ok (nominal, effective, none) ∧
      effective = nominal ∧
      parseDecimal "3.45".toList = some nominal ∧
      parseInterestRatesFromCellText parseDecimal "3,45 %".toList =
        .ok (nominal, nominal, none) := by
  obtain ⟨he, part0, parts, hs, hp, hall⟩ :=
    parseInterestRatesFromCellText_effective_eq_nominal parseDecimal "3,45 % (3,51 %)".toList
      _ _ rfl
  have e : part0 = "3,45".toList := (List.cons.inj (hs.symm.trans (by rfl))).1
  subst e
  exact ⟨_, _, rfl, he, hp, hall "3,45 %".toList [] (by rfl)⟩

/-- C19. Every record `parseTable` returns has the bank "Danske Bank", the type
`ratioDiscounted` and no union discount, whichever the table.  So, for two parsed
tables and one crawl time, a record of the second table with the term and the
boundary of a record of the first is that record but for the two rates and
`ChangedOn`. -/
theorem parseTable_records_same_key :
    (∀ (ParseFloat : Str → Option Float32) (today : Nat → Date) (table : Node)
        (crawlTime : Time) (sets : List InterestSet) (err : Option Error),
      parseTable ParseFloat today table crawlTime = .ok (sets, err) →
      ∀ s ∈ sets, s.Bank = DanskeBankName ∧ s.Type_ = TypeRatioDiscounted ∧
        s.UnionDiscount = false) ∧
    (∀ (ParseFloat : Str → Option Float32) (today1 today2 : Nat → Date) (table1 table2 : Node)
        (crawlTime : Time) (sets1 sets2 : List InterestSet) (err1 err2 : Option Error),
      parseTable ParseFloat today1 table1 crawlTime = .ok (sets1, err1) →
      parseTable ParseFloat today2 table2 crawlTime = .ok (sets2, err2) →
      ∀ s1 ∈ sets1, ∀ s2 ∈ sets2, s1.Term = s2.Term →
        s1.RatioDiscountBoundaries = s2.RatioDiscountBoundaries →
        s2 = { s1 with NominalRate := s2.NominalRate, EffectiveRate := s2.EffectiveRate,
                       ChangedOn := s2.ChangedOn }) := by
  have key : ∀ (ParseFloat : Str → Option Float32) (today : Nat → Date) (table : Node)
      (crawlTime : Time) (sets : List InterestSet) (err : Option Error),
      parseTable ParseFloat today table crawlTime = .ok (sets, err) →
      ∀ s ∈ sets, s.Bank = DanskeBankName ∧ s.Type_ = TypeRatioDiscounted ∧
        s.UnionDiscount = false ∧ s.LastCrawledAt = crawlTime := by
    intro ParseFloat today table crawlTime sets err h s hs
    cases err with
    | some e =>
      rw [parseTable_error_nil ParseFloat today table crawlTime sets e h] at hs
      cases hs
    | none =>
      obtain ⟨header, data, bs, -, -, hall⟩ :=
        parseTable_record_source ParseFloat today table crawlTime sets h
      obtain ⟨row, -, j, cell, b, term, -, -, -, hrec⟩ := hall s hs
      exact ⟨hrec.1, hrec.2.2.1, hrec.2.2.2.2.1, hrec.2.2.2.2.2.1⟩
  constructor
  · intro ParseFloat today table crawlTime sets err h s hs
    obtain ⟨h1, h2, h3, -⟩ := key ParseFloat today table crawlTime sets err h s hs
    exact ⟨h1, h2, h3⟩
  · intro ParseFloat today1 today2 table1 table2 crawlTime sets1 sets2 err1 err2 h1 h2
      s1 hs1 s2 hs2 hterm hb
    obtain ⟨a1, a2, a3, a4⟩ := key ParseFloat today1 table1 crawlTime sets1 err1 h1 s1 hs1
    obtain ⟨b1, b2, b3, b4⟩ := key ParseFloat today2 table2 crawlTime sets2 err2 h2 s2 hs2
    cases s1
    cases s2
    simp only [] at a1 a2 a3 a4 b1 b2 b3 b4 hterm hb
    simp only [InterestSet.mk.injEq, true_and]
    exact ⟨by rw [a1, b1], hterm.symm, by rw [a2, b2], hb.symm, by rw [a3, b3], by rw [a4, b4]⟩

/-- C19, witness: the record of index 5 of the example table and the record of index
5 of the second table, at one crawl time. -/
theorem parseTable_records_same_key_witness :
    ∃ sets1 sets2 s1 s2,
      parseTable parseDecimal (fun _ => 0) exampleTable 7 = .ok (sets1, none) ∧
      parseTable parseDecimal (fun k => k) unionOfferExampleTable 7 = .ok (sets2, none) ∧
      sets1.get? 5 = some s1 ∧ sets2.get? 5 = some s2 ∧
      s2 = { s1 with NominalRate := s2.NominalRate, EffectiveRate := s2.EffectiveRate,
                     ChangedOn := s2.ChangedOn } ∧
      s2.Bank = DanskeBankName ∧ s2.Type_ = TypeRatioDiscounted ∧ s2.UnionDiscount = false :=
  ⟨_, _, _, _, rfl, rfl, rfl, rfl,
    parseTable_records_same_key.2 parseDecimal (fun _ => 0) (fun k => k) exampleTable
      unionOfferExampleTable 7 _ _ none none rfl rfl _ (@List.get?_mem _ _ 5 _ rfl) _
      (@List.get?_mem _ _ 5 _ rfl) rfl rfl,
    parseTable_records_same_key.1 parseDecimal (fun k => k) unionOfferExampleTable 7 _ none rfl _
      (@List.get?_mem _ _ 5 _ rfl)⟩

theorem mem_replaceSpaceRunsFrom (s : Str) :
    ∀ (b : Bool) (c : Char), c ∈ replaceSpaceRunsFrom " ".toList b s →
      c = ' ' ∨ (c ∈ s ∧ isRegexpSpace c = false) := by
  induction s with
  | nil => intro b c h; simp [replaceSpaceRunsFrom] at h
  | cons x xs ih =>
    intro b c h
    by_cases hx : isRegexpSpace x = true
    · cases b
      · simp only [replaceSpaceRunsFrom, hx, if_true, Bool.false_eq_true, if_false] at h
        rcases List.mem_append.mp h with h | h
        · left; simpa using h
        · rcases ih true c h with h | h
          · exact Or.inl h
          · exact Or.inr ⟨List.mem_cons_of_mem _ h.1, h.2⟩
      · simp only [replaceSpaceRunsFrom, hx, if_true] at h
        rcases ih true c h with h | h
        · exact Or.inl h
        · exact Or.inr ⟨List.mem_cons_of_mem _ h.1, h.2⟩
    · have hx2 : isRegexpSpace x = false := by simpa using hx
      simp only [replaceSpaceRunsFrom, hx2, Bool.false_eq_true, if_false, List.mem_cons] at h
      rcases h with h | h
      · right; rw [h]; exact ⟨List.mem_cons_self _ _, hx2⟩
      · rcases ih false c h with h | h
        · exact Or.inl h
        · exact Or.inr ⟨List.mem_cons_of_mem _ h.1, h.2⟩

theorem mem_ReplaceAll_nil {s : Str} {old c : Char} (h : c ∈ ReplaceAll s old []) :
    c ∈ s ∧ c ≠ old := by
  unfold ReplaceAll at h
  obtain ⟨x, hx, hc⟩ := List.mem_flatMap.mp h
  by_cases hxo : x = old
  · simp [hxo] at hc
  · simp only [hxo, if_false, List.mem_singleton] at hc
    rw [hc]; exact ⟨hx, hxo⟩

/-- A text made of whitespace and decoration only is sanitised to the empty
string. -/
theorem sanitizedCellText_blank (cell : Str)
    (h : ∀ c ∈ cell, isSpaceOrDecoration c = true) : sanitizedCellText cell = [] := by
  rw [sanitizedCellText_eq]
  have hall : ∀ c ∈ untrimmed cell, unicodeIsSpace c = true := by
    intro c hc
    unfold untrimmed removeDecoration at hc
    obtain ⟨h4, n4⟩ := mem_ReplaceAll_nil hc
    obtain ⟨h3, n3⟩ := mem_ReplaceAll_nil h4
    obtain ⟨h2, n2⟩ := mem_ReplaceAll_nil h3
    obtain ⟨h1, n1⟩ := mem_ReplaceAll_nil h2
    rcases mem_replaceSpaceRunsFrom cell false c h1 with e | ⟨hm, hs⟩
    · rw [e]; decide
    · have := h c hm
      simp [isSpaceOrDecoration, hs, n1, n2, n3, n4] at this
  unfold TrimSpace
  rw [List.dropWhile_eq_nil_iff.mpr hall]
  rfl

/-- C20. For every cell text the split of the sanitised text has a first part, so
`parts[0]` is defined and `parseInterestRatesFromCellText` returns; when the first
part is empty, `ParseFloat` rejecting the empty string, it returns an error with the
rates (0, 0).  The first part is empty for the empty string and for every text made
only of whitespace, `%`, `*`, `(` and `)`. -/
theorem parseInterestRatesFromCellText_fails_closed (ParseFloat : Str → Option Float32)
    (cell : Str) :
    (∃ part0 parts, Split (sanitizedCellText cell) ' ' = part0 :: parts ∧
      (∃ r, parseInterestRatesFromCellText ParseFloat cell = .ok r) ∧
      (ParseFloat [] = none → part0 = [] →
        ∃ err, parseInterestRatesFromCellText ParseFloat cell = .ok (0, 0, some err))) ∧
    ((∀ c ∈ cell, isSpaceOrDecoration c = true) →
      Split (sanitizedCellText cell) ' ' = [[]]) := by
  constructor
  · obtain ⟨parts, hs⟩ := rateToken_eq cell
    refine ⟨_, parts, hs, ?_, ?_⟩
    · have ho := parseInterestRatesFromCellText_outcome ParseFloat cell
      cases hr : parseInterestRatesFromCellText ParseFloat cell with
      | error p => rw [hr] at ho; cases ho
      | ok r => exact ⟨r, rfl⟩
    · intro hempty h0
      have ho := parseInterestRatesFromCellText_outcome ParseFloat cell
      rw [h0] at ho
      have e : ReplaceAll [] ',' ".".toList = [] := rfl
      rw [e, hempty] at ho
      cases hr : parseInterestRatesFromCellText ParseFloat cell with
      | error p => rw [hr] at ho; cases ho
      | ok r =>
        obtain ⟨n, e, err⟩ := r
        rw [hr] at ho
        simp only [cellOutcome, Except.ok.injEq, Prod.mk.injEq] at ho
        obtain ⟨hn, he, herr⟩ := ho
        obtain ⟨x, hx⟩ := Option.isSome_iff_exists.mp herr
        exact ⟨x, by rw [hn, he, hx]⟩
  · intro h
    rw [sanitizedCellText_blank cell h]
    rfl

/-- C20, witness: the cell ` % * ( ) `, of whitespace and decoration only. -/
theorem parseInterestRatesFromCellText_fails_closed_witness :
    Split (sanitizedCellText " % * ( ) ".toList) ' ' = [[]] ∧
      ∃ err, parseInterestRatesFromCellText parseDecimal " % * ( ) ".toList =
        .ok (0, 0, some err) := by
  obtain ⟨⟨part0, parts, hs, -, herr⟩, hblank⟩ :=
    parseInterestRatesFromCellText_fails_closed parseDecimal " % * ( ) ".toList
  have hb := hblank (by decide)
  rw [hb] at hs
  exact ⟨hb, herr rfl (List.cons.inj hs).1.symm⟩

/-! ## The text of a node -/

theorem rdropWhile_cons_of_neg {α : Type} (p : α → Bool) (a : α) (l : List α)
    (h : p a = false) : (a :: l).rdropWhile p = a :: l.rdropWhile p := by
  by_cases hl : ∀ x ∈ l, p x = true
  · have e := rdropWhile_append_of_all p [a] l hl
    rw [List.singleton_append] at e
    rw [e, List.rdropWhile_eq_nil_iff.mpr hl, List.rdropWhile_singleton, h]
    rfl
  · exact rdropWhile_append_of_not_all p [a] l hl

theorem rdropWhile_cons_cons_of_neg {α : Type} (p : α → Bool) (a b : α) (l : List α)
    (h : p b = false) : (a :: b :: l).rdropWhile p = a :: b :: l.rdropWhile p := by
  have hl : ¬ ∀ x ∈ b :: l, p x = true := by
    intro hall
    have := hall b (List.mem_cons_self _ _)
    rw [h] at this; cases this
  have e := rdropWhile_append_of_not_all p [a] (b :: l) hl
  rw [List.singleton_append] at e
  rw [e, rdropWhile_cons_of_neg p b l h, List.singleton_append]

/-- The text before trimming in `sanitizeText`; `b` tells whether a run of
whitespace is being replaced at the start. -/
theorem sanitize_untrimmed_sep (b : Bool) (c : Char) (cs : Str) (h : isSeparator c = true) :
    replaceSpaceRunsFrom " ".toList b (ReplaceAll (c :: cs) (Char.ofNat 0xA0) " ".toList) =
      (if b then [] else [' ']) ++
        replaceSpaceRunsFrom " ".toList true (ReplaceAll cs (Char.ofNat 0xA0) " ".toList) := by
  have hsp : isRegexpSpace ' ' = true := by decide
  have hcons : ReplaceAll (c :: cs) (Char.ofNat 0xA0) " ".toList =
      (if c = Char.ofNat 0xA0 then " ".toList else [c]) ++
        ReplaceAll cs (Char.ofNat 0xA0) " ".toList := by
    simp [ReplaceAll]
  rw [hcons]
  by_cases hc : c = Char.ofNat 0xA0
  · rw [if_pos hc]
    cases b <;> simp [replaceSpaceRunsFrom, hsp]
  · rw [if_neg hc]
    have hws : isRegexpSpace c = true := by
      simpa [isSeparator, hc] using h
    cases b <;> simp [replaceSpaceRunsFrom, hws]

theorem sanitize_untrimmed_word (b : Bool) (c : Char) (cs : Str) (h : isSeparator c = false) :
    replaceSpaceRunsFrom " ".toList b (ReplaceAll (c :: cs) (Char.ofNat 0xA0) " ".toList) =
      c :: replaceSpaceRunsFrom " ".toList false
        (ReplaceAll cs (Char.ofNat 0xA0) " ".toList) := by
  have hcons : ReplaceAll (c :: cs) (Char.ofNat 0xA0) " ".toList =
      (if c = Char.ofNat 0xA0 then " ".toList else [c]) ++
        ReplaceAll cs (Char.ofNat 0xA0) " ".toList := by
    simp [ReplaceAll]
  have hc : c ≠ Char.ofNat 0xA0 := by
    intro e; rw [e] at h; revert h; decide
  have hws : isRegexpSpace c = false := by
    simpa [isSeparator, hc] using h
  rw [hcons, if_neg hc]
  simp [replaceSpaceRunsFrom, hws]

theorem isSeparator_word_ne_space {c : Char} (h : isSeparator c = false) : c ≠ ' ' := by
  intro e; rw [e] at h; revert h; decide

/-- Trimming the spaces at the end of the replaced text gives the one-pass
normalisation, inside a text and after a separator. -/
theorem rdropWhile_untrimmed (s : Str) :
    List.rdropWhile (fun c => decide (c = ' '))
        (replaceSpaceRunsFrom " ".toList false (ReplaceAll s (Char.ofNat 0xA0) " ".toList)) =
      streamNormal true false s ∧
    List.rdropWhile (fun c => decide (c = ' '))
        (' ' :: replaceSpaceRunsFrom " ".toList true
          (ReplaceAll s (Char.ofNat 0xA0) " ".toList)) =
      streamNormal true true s := by
  induction s with
  | nil => exact ⟨by rfl, by rfl⟩
  | cons c cs ih =>
    by_cases hc : isSeparator c = true
    · rw [sanitize_untrimmed_sep false c cs hc, sanitize_untrimmed_sep true c cs hc]
      simp only [Bool.false_eq_true, if_false, if_true, List.nil_append, List.singleton_append,
        streamNormal, hc]
      exact ⟨ih.2, ih.2⟩
    · have hc2 : isSeparator c = false := by simpa using hc
      have hne : decide (c = ' ') = false := by simpa using isSeparator_word_ne_space hc2
      rw [sanitize_untrimmed_word false c cs hc2, sanitize_untrimmed_word true c cs hc2]
      constructor
      · rw [rdropWhile_cons_of_neg _ c _ hne, ih.1]
        simp [streamNormal, hc2]
      · rw [rdropWhile_cons_cons_of_neg _ ' ' c _ hne, ih.1]
        simp [streamNormal, hc2]

theorem rdropWhile_untrimmed_start (s : Str) :
    ∀ pd, List.rdropWhile (fun c => decide (c = ' '))
        (replaceSpaceRunsFrom " ".toList true (ReplaceAll s (Char.ofNat 0xA0) " ".toList)) =
      streamNormal false pd s := by
  induction s with
  | nil => intro pd; rfl
  | cons c cs ih =>
    intro pd
    by_cases hc : isSeparator c = true
    · rw [sanitize_untrimmed_sep true c cs hc]
      simp only [if_true, List.nil_append, streamNormal, hc]
      exact ih true
    · have hc2 : isSeparator c = false := by simpa using hc
      have hne : decide (c = ' ') = false := by simpa using isSeparator_word_ne_space hc2
      rw [sanitize_untrimmed_word true c cs hc2, rdropWhile_cons_of_neg _ c _ hne,
        (rdropWhile_untrimmed cs).1]
      simp [streamNormal, hc2]

theorem dropWhile_untrimmed_start (s : Str) :
    List.dropWhile (fun c => decide (c = ' '))
        (replaceSpaceRunsFrom " ".toList true (ReplaceAll s (Char.ofNat 0xA0) " ".toList)) =
      replaceSpaceRunsFrom " ".toList true (ReplaceAll s (Char.ofNat 0xA0) " ".toList) := by
  induction s with
  | nil => rfl
  | cons c cs ih =>
    by_cases hc : isSeparator c = true
    · rw [sanitize_untrimmed_sep true c cs hc]
      simpa using ih
    · have hc2 : isSeparator c = false := by simpa using hc
      have hne : decide (c = ' ') = false := by simpa using isSeparator_word_ne_space hc2
      rw [sanitize_untrimmed_word true c cs hc2, List.dropWhile_cons_of_neg (by simp [hne])]

theorem dropWhile_untrimmed (s : Str) :
    List.dropWhile (fun c => decide (c = ' '))
        (replaceSpaceRunsFrom " ".toList false (ReplaceAll s (Char.ofNat 0xA0) " ".toList)) =
      replaceSpaceRunsFrom " ".toList true (ReplaceAll s (Char.ofNat 0xA0) " ".toList) := by
  cases s with
  | nil => rfl
  | cons c cs =>
    by_cases hc : isSeparator c = true
    · rw [sanitize_untrimmed_sep false c cs hc, sanitize_untrimmed_sep true c cs hc]
      simpa using dropWhile_untrimmed_start cs
    · have hc2 : isSeparator c = false := by simpa using hc
      have hne : decide (c = ' ') = false := by simpa using isSeparator_word_ne_space hc2
      rw [sanitize_untrimmed_word false c cs hc2, sanitize_untrimmed_word true c cs hc2,
        List.dropWhile_cons_of_neg (by simp [hne])]

/-- The sanitising of `getAllTextFromNode` is the one-pass normalisation. -/
theorem sanitizeText_eq_streamNormal (s : Str) : sanitizeText s = streamNormal false false s := by
  unfold sanitizeText Trim regexpSpacesReplaceAllString
  simp only []
  rw [dropWhile_untrimmed, rdropWhile_untrimmed_start s false]

theorem ReplaceAll_eq_map (s : Str) :
    ReplaceAll s (Char.ofNat 0xA0) " ".toList =
      s.map fun c => if c = Char.ofNat 0xA0 then ' ' else c := by
  induction s with
  | nil => rfl
  | cons c cs ih =>
    have hcons : ReplaceAll (c :: cs) (Char.ofNat 0xA0) " ".toList =
        (if c = Char.ofNat 0xA0 then " ".toList else [c]) ++
          ReplaceAll cs (Char.ofNat 0xA0) " ".toList := by
      simp [ReplaceAll]
    rw [hcons, ih, List.map_cons]
    by_cases hc : c = Char.ofNat 0xA0
    · rw [if_pos hc, if_pos hc]; rfl
    · rw [if_neg hc, if_neg hc]; rfl

/-- The normalisation of the specification is the sanitising of the code. -/
theorem normalise_eq_sanitizeText (s : Str) : normalise s = sanitizeText s := by
  unfold normalise sanitizeText
  rw [ReplaceAll_eq_map]

theorem streamNormal_unstarted (pd : Bool) (s : Str) :
    streamNormal false pd s = streamNormal false false s := by
  cases s with
  | nil => rfl
  | cons c cs => simp [streamNormal]

theorem hasWord_cons (c : Char) (cs : Str) :
    hasWord (c :: cs) = (!isSeparator c || hasWord cs) := by
  simp [hasWord]

theorem hasWord_append (x y : Str) : hasWord (x ++ y) = (hasWord x || hasWord y) := by
  simp [hasWord]

theorem streamNormal_append (x y : Str) :
    ∀ st pd, streamNormal st pd (x ++ y) =
      streamNormal st pd x ++ streamNormal (st || hasWord x) (pendingAfter pd x) y := by
  induction x with
  | nil => intro st pd; simp [streamNormal, hasWord, pendingAfter]
  | cons c cs ih =>
    intro st pd
    by_cases hc : isSeparator c = true
    · have e := ih st true
      simpa [streamNormal, hc, hasWord_cons, pendingAfter] using e
    · have hc2 : isSeparator c = false := by simpa using hc
      by_cases hsp : (st && pd) = true
      · simp [streamNormal, hc2, hsp, ih, hasWord_cons, pendingAfter]
      · simp [streamNormal, hc2, hsp, ih, hasWord_cons, pendingAfter]

/-- A string that is empty or starts with a separator goes through the pass the
same way whether a separator is pending or not. -/
theorem streamNormal_pending (z : Str) (hz : z = [] ∨ ∃ c cs, z = c :: cs ∧ isSeparator c = true)
    (st pd : Bool) : streamNormal st pd z = streamNormal st true z := by
  rcases hz with rfl | ⟨c, cs, rfl, hc⟩
  · rfl
  · simp [streamNormal, hc]

theorem hasWord_streamNormal (s : Str) :
    ∀ st pd, hasWord (streamNormal st pd s) = hasWord s := by
  have hsp : isSeparator ' ' = true := by decide
  induction s with
  | nil => intro st pd; rfl
  | cons c cs ih =>
    intro st pd
    by_cases hc : isSeparator c = true
    · simp [streamNormal, hc, ih, hasWord_cons]
    · have hc2 : isSeparator c = false := by simpa using hc
      by_cases hs : (st && pd) = true
      · simp [streamNormal, hc2, hs, hasWord_cons]
      · simp [streamNormal, hc2, hs, hasWord_cons]

theorem streamNormal_idem_started (s : Str) :
    ∀ pd, streamNormal true false (streamNormal true pd s) = streamNormal true pd s := by
  have hsp : isSeparator ' ' = true := by decide
  induction s with
  | nil => intro pd; rfl
  | cons c cs ih =>
    intro pd
    by_cases hc : isSeparator c = true
    · simp only [streamNormal, hc, if_true]
      exact ih true
    · have hc2 : isSeparator c = false := by simpa using hc
      cases pd
      · simp [streamNormal, hc2, ih false]
      · simp [streamNormal, hc2, hsp, ih false]

/-- The pass over the normalised text gives what the pass over the text gives. -/
theorem streamNormal_idem (s : Str) :
    ∀ st, streamNormal st true (streamNormal false true s) = streamNormal st true s := by
  induction s with
  | nil => intro st; rfl
  | cons c cs ih =>
    intro st
    by_cases hc : isSeparator c = true
    · simp only [streamNormal, hc, if_true]
      exact ih st
    · have hc2 : isSeparator c = false := by simpa using hc
      cases st
      · simp [streamNormal, hc2, streamNormal_idem_started cs false]
      · simp [streamNormal, hc2, streamNormal_idem_started cs false]

theorem sameWords_append {x y x2 y2 : Str} (h : sameWords x y) (h2 : sameWords x2 y2)
    (hx : x2 = [] ∨ ∃ c cs, x2 = c :: cs ∧ isSeparator c = true)
    (hy : y2 = [] ∨ ∃ c cs, y2 = c :: cs ∧ isSeparator c = true) :
    sameWords (x ++ x2) (y ++ y2) := by
  refine ⟨fun st => ?_, by rw [hasWord_append, hasWord_append, h.2, h2.2]⟩
  rw [streamNormal_append, streamNormal_append, streamNormal_pending x2 hx,
    streamNormal_pending y2 hy, h.1, h.2, h2.1]

theorem spaced_starts (ts : List Str) :
    spaced ts = [] ∨ ∃ c cs, spaced ts = c :: cs ∧ isSeparator c = true := by
  cases ts with
  | nil => exact Or.inl rfl
  | cons t ts => exact Or.inr ⟨' ', t ++ spaced ts, by simp [spaced], by decide⟩

theorem spaced_append (ts us : List Str) : spaced (ts ++ us) = spaced ts ++ spaced us := by
  simp [spaced]

theorem getAllTextFromChildren_starts (cs : List Node) :
    getAllTextFromChildren cs = [] ∨
      ∃ c rest, getAllTextFromChildren cs = c :: rest ∧ isSeparator c = true := by
  cases cs with
  | nil => exact Or.inl (by simp [getAllTextFromChildren])
  | cons n ns =>
    refine Or.inr ⟨' ', getAllTextFromNonNil n ++ getAllTextFromChildren ns, ?_, by decide⟩
    rw [getAllTextFromChildren]
    rfl

mutual
/-- The text of a node is the one-pass normalisation of its texts, each with a space
in front. -/
theorem getAllTextFromNonNil_eq_streamNormal :
    ∀ n : Node, getAllTextFromNonNil n = streamNormal false true (spaced (textsOf n))
  | .mk t d cs => by
    have hq := getAllTextFromChildren_sameWords cs
    have hp : spaced (if t = .TextNode then [d] else []) =
        (if t = .TextNode then " ".toList ++ d else []) := by
      split <;> simp [spaced]
    have hrefl : sameWords (if t = .TextNode then " ".toList ++ d else [])
        (if t = .TextNode then " ".toList ++ d else []) := ⟨fun _ => rfl, rfl⟩
    rw [getAllTextFromNonNil, sanitizeText_eq_streamNormal, ← streamNormal_unstarted true,
      textsOf, spaced_append, hp]
    exact (sameWords_append hrefl hq (getAllTextFromChildren_starts cs)
      (spaced_starts (textsOfAll cs))).1 false
/-- What the loop over the children appends goes through the pass as the texts of
the children do, each with a space in front. -/
theorem getAllTextFromChildren_sameWords :
    ∀ cs : List Node, sameWords (getAllTextFromChildren cs) (spaced (textsOfAll cs))
  | [] => by
    rw [getAllTextFromChildren, textsOfAll]
    exact ⟨fun _ => rfl, rfl⟩
  | c :: cs => by
    have hsp : isSeparator ' ' = true := by decide
    have hpiece : sameWords (" ".toList ++ getAllTextFromNonNil c) (spaced (textsOf c)) := by
      rw [getAllTextFromNonNil_eq_streamNormal c]
      refine ⟨fun st => ?_, ?_⟩
      · show streamNormal st true (' ' :: streamNormal false true (spaced (textsOf c))) = _
        rw [streamNormal, if_pos hsp]
        exact streamNormal_idem _ st
      · show hasWord (' ' :: streamNormal false true (spaced (textsOf c))) = _
        rw [hasWord_cons, hsp, hasWord_streamNormal]
        rfl
    rw [getAllTextFromChildren, textsOfAll, spaced_append]
    exact sameWords_append hpiece (getAllTextFromChildren_sameWords cs)
      (getAllTextFromChildren_starts cs) (spaced_starts (textsOfAll cs))
end

theorem joinWithSpaces_cons (t : Str) (ts : List Str) :
    joinWithSpaces (t :: ts) = t ++ spaced ts := by
  induction ts generalizing t with
  | nil => simp [joinWithSpaces, spaced]
  | cons u us ih => rw [joinWithSpaces, ih u]; simp [spaced]

theorem streamNormal_joinWithSpaces (ts : List Str) :
    streamNormal false false (joinWithSpaces ts) = streamNormal false true (spaced ts) := by
  have hsp : isSeparator ' ' = true := by decide
  cases ts with
  | nil => rfl
  | cons t ts =>
    have e : spaced (t :: ts) = ' ' :: (t ++ spaced ts) := by simp [spaced]
    rw [joinWithSpaces_cons, e, streamNormal, if_pos hsp]
    exact (streamNormal_unstarted true _).symm

theorem streamNormal_mem (z : Str) :
    ∀ st pd, ∀ c ∈ streamNormal st pd z, c = ' ' ∨ isSeparator c = false := by
  induction z with
  | nil => intro st pd c h; simp [streamNormal] at h
  | cons x xs ih =>
    intro st pd c h
    by_cases hx : isSeparator x = true
    · rw [streamNormal, if_pos hx] at h
      exact ih st true c h
    · have hx2 : isSeparator x = false := by simpa using hx
      rw [streamNormal, if_neg hx] at h
      split at h
      · rcases List.mem_cons.mp h with h | h
        · exact Or.inl h
        · rcases List.mem_cons.mp h with h | h
          · rw [h]; exact Or.inr hx2
          · exact ih true false c h
      · rcases List.mem_cons.mp h with h | h
        · rw [h]; exact Or.inr hx2
        · exact ih true false c h

theorem isRegexpSpace_of_word {c : Char} (h : isSeparator c = false) : isRegexpSpace c = false := by
  unfold isSeparator at h
  cases hc : isRegexpSpace c with
  | false => rfl
  | true => rw [hc] at h; simp at h

theorem streamNormal_chain (z : Str) :
    ∀ st pd, List.Chain' (fun a b => ¬(isRegexpSpace a = true ∧ isRegexpSpace b = true))
      (streamNormal st pd z) := by
  induction z with
  | nil => intro st pd; simp [streamNormal]
  | cons x xs ih =>
    intro st pd
    by_cases hx : isSeparator x = true
    · rw [streamNormal, if_pos hx]
      exact ih st true
    · have hx2 : isSeparator x = false := by simpa using hx
      have hw := isRegexpSpace_of_word hx2
      have hxs : List.Chain' (fun a b => ¬(isRegexpSpace a = true ∧ isRegexpSpace b = true))
          (x :: streamNormal true false xs) :=
        List.chain'_cons'.mpr ⟨fun y _ hy => (by rw [hw] at hy; cases hy.1), ih true false⟩
      rw [streamNormal, if_neg hx]
      split
      · exact List.chain'_cons'.mpr
          ⟨fun y hy h2 => (by
            simp only [List.head?_cons, Option.mem_def, Option.some.injEq] at hy
            rw [← hy, hw] at h2; cases h2.2), hxs⟩
      · exact hxs

theorem streamNormal_head (z : Str) :
    ∀ pd, (streamNormal false pd z).head? ≠ some ' ' := by
  induction z with
  | nil => intro pd; simp [streamNormal]
  | cons x xs ih =>
    intro pd
    by_cases hx : isSeparator x = true
    · rw [streamNormal, if_pos hx]
      exact ih true
    · have hx2 : isSeparator x = false := by simpa using hx
      rw [streamNormal, if_neg hx]
      simp only [Bool.false_and, Bool.false_eq_true, if_false, List.head?_cons, ne_eq,
        Option.some.injEq]
      exact isSeparator_word_ne_space hx2

theorem getLast?_cons_ne {a b : Char} {l : Str} (ha : a ≠ b) (hl : l.getLast? ≠ some b) :
    (a :: l).getLast? ≠ some b := by
  cases l with
  | nil => simpa using ha
  | cons x xs => rw [List.getLast?_cons_cons]; exact hl

theorem streamNormal_getLast (z : Str) :
    ∀ st pd, (streamNormal st pd z).getLast? ≠ some ' ' := by
  induction z with
  | nil => intro st pd; simp [streamNormal]
  | cons x xs ih =>
    intro st pd
    by_cases hx : isSeparator x = true
    · rw [streamNormal, if_pos hx]
      exact ih st true
    · have hx2 : isSeparator x = false := by simpa using hx
      have hne := isSeparator_word_ne_space hx2
      have hxs : (x :: streamNormal true false xs).getLast? ≠ some ' ' :=
        getLast?_cons_ne hne (ih true false)
      rw [streamNormal, if_neg hx]
      split
      · rw [List.getLast?_cons_cons]; exact hxs
      · exact hxs

/-- Whatever the node, the text is the one-pass normalisation of some string. -/
theorem getAllTextFromNode_streamNormal (node : Option Node) :
    ∃ z, getAllTextFromNode node = streamNormal false false z := by
  cases node with
  | none => exact ⟨[], by rfl⟩
  | some n =>
    exact ⟨spaced (textsOf n), by
      rw [getAllTextFromNode, getAllTextFromNonNil_eq_streamNormal, streamNormal_unstarted]⟩

/-- C18. `getAllTextFromNode`, which sanitises at every level of its recursion, is
the one-pass reference: the `Data` of the text nodes of the subtree, in document
order, joined by single spaces and normalised once.  So its result has no space in
front or at the end, holds no U+00A0 and no two adjacent whitespace runes, and is
the empty string for the nil node. -/
theorem getAllTextFromNode_eq_reference (node : Option Node) :
    getAllTextFromNode node = allTextReference node ∧
      (getAllTextFromNode node).head? ≠ some ' ' ∧
      (getAllTextFromNode node).getLast? ≠ some ' ' ∧
      Char.ofNat 0xA0 ∉ getAllTextFromNode node ∧
      List.Chain' (fun a b => ¬(isRegexpSpace a = true ∧ isRegexpSpace b = true))
        (getAllTextFromNode node) ∧
      getAllTextFromNode none = [] := by
  obtain ⟨z, hz⟩ := getAllTextFromNode_streamNormal node
  refine ⟨?_, ?_, ?_, ?_, ?_, by rfl⟩
  · cases node with
    | none => rfl
    | some n =>
      rw [getAllTextFromNode, allTextReference, normalise_eq_sanitizeText,
        sanitizeText_eq_streamNormal, streamNormal_joinWithSpaces,
        getAllTextFromNonNil_eq_streamNormal]
  · rw [hz]; exact streamNormal_head z false
  · rw [hz]; exact streamNormal_getLast z false false
  · rw [hz]
    intro hmem
    rcases streamNormal_mem z false false _ hmem with h | h
    · revert h; decide
    · revert h; decide
  · rw [hz]; exact streamNormal_chain z false false

/-- The text of the example cell, by the code and by the reference. -/
theorem getAllTextFromNode_example :
    getAllTextFromNode (some nestedTextExample) = "3,45 % (3,51 %) *".toList ∧
      allTextReference (some nestedTextExample) = "3,45 % (3,51 %) *".toList :=
  ⟨by decide, by decide⟩

/-! ## Cell texts through `getAllTextFromNode` -/

theorem untrimmed_whitespace (a b : Str) (c : Char) (hc : isRegexpSpace c = true) :
    untrimmed (a ++ c :: b) = untrimmed (a ++ ' ' :: b) := by
  unfold untrimmed regexpSpacesReplaceAllString
  rw [replaceSpaceRunsFrom_append, replaceSpaceRunsFrom_append]
  have hsp : isRegexpSpace ' ' = true := by decide
  cases runState false a <;> simp [replaceSpaceRunsFrom, hsp, hc]

theorem firstPart_spaceVariant {s t : Str} (h : SpaceVariant s t) :
    firstPart (untrimmed s) = firstPart (untrimmed t) := by
  induction h with
  | whitespace a b c hc => rw [untrimmed_whitespace a b c hc]
  | repeatedSpace a b => rw [untrimmed_repeatedSpace]
  | leadingSpace s => exact firstPart_padded (untrimmed_leadingSpace s)
  | trailingSpace s => exact firstPart_padded (untrimmed_trailingSpace s)
  | refl s => rfl
  | symm _ ih => exact ih.symm
  | trans _ _ ih1 ih2 => exact ih1.trans ih2

/-- Replacing the runs of whitespace by one space changes a text by whitespace
only, whatever comes before. -/
theorem replaceSpaceRunsFrom_spaceVariant (y : Str) :
    ∀ p : Str, SpaceVariant (p ++ replaceSpaceRunsFrom " ".toList false y) (p ++ y) ∧
      SpaceVariant (p ++ ' ' :: replaceSpaceRunsFrom " ".toList true y) (p ++ ' ' :: y) := by
  induction y with
  | nil => intro p; exact ⟨SpaceVariant.refl _, SpaceVariant.refl _⟩
  | cons c cs ih =>
    intro p
    by_cases hc : isRegexpSpace c = true
    · have e1 : replaceSpaceRunsFrom " ".toList false (c :: cs) =
          ' ' :: replaceSpaceRunsFrom " ".toList true cs := by simp [replaceSpaceRunsFrom, hc]
      have e2 : replaceSpaceRunsFrom " ".toList true (c :: cs) =
          replaceSpaceRunsFrom " ".toList true cs := by simp [replaceSpaceRunsFrom, hc]
      rw [e1, e2]
      have h1 : SpaceVariant (p ++ ' ' :: cs) (p ++ c :: cs) :=
        (SpaceVariant.whitespace p cs c hc).symm
      refine ⟨(ih p).2.trans h1, ?_⟩
      have h2 : SpaceVariant (p ++ ' ' :: cs) (p ++ ' ' :: ' ' :: cs) :=
        SpaceVariant.repeatedSpace p cs
      have h3 : SpaceVariant (p ++ ' ' :: ' ' :: cs) (p ++ ' ' :: c :: cs) := by
        have := (SpaceVariant.whitespace (p ++ [' ']) cs c hc).symm
        simpa using this
      exact ((ih p).2.trans h2).trans h3
    · have e1 : ∀ b, replaceSpaceRunsFrom " ".toList b (c :: cs) =
          c :: replaceSpaceRunsFrom " ".toList false cs := by
        intro b; simp [replaceSpaceRunsFrom, hc]
      rw [e1, e1]
      have h1 := (ih (p ++ [c])).1
      have h2 := (ih (p ++ [' ', c])).1
      simp only [List.append_assoc, List.singleton_append, List.cons_append,
        List.nil_append] at h1 h2
      exact ⟨h1, h2⟩

theorem dropWhile_space_spaceVariant (z : Str) :
    SpaceVariant z (z.dropWhile fun c => decide (c = ' ')) := by
  induction z with
  | nil => exact SpaceVariant.refl _
  | cons c cs ih =>
    by_cases hc : c = ' '
    · rw [hc, List.dropWhile_cons_of_pos (by simp)]
      exact (SpaceVariant.leadingSpace cs).symm.trans ih
    · rw [List.dropWhile_cons_of_neg (by simpa using hc)]
      exact SpaceVariant.refl _

theorem rdropWhile_space_spaceVariant (z : Str) :
    SpaceVariant z (z.rdropWhile fun c => decide (c = ' ')) := by
  induction z using List.reverseRecOn with
  | nil => exact SpaceVariant.refl _
  | append_singleton cs c ih =>
    by_cases hc : c = ' '
    · rw [hc, List.rdropWhile_concat_pos _ _ _ (by simp)]
      exact (SpaceVariant.trailingSpace cs).symm.trans ih
    · rw [List.rdropWhile_concat_neg _ _ _ (by simpa using hc)]
      exact SpaceVariant.refl _

/-- The sanitising of `getAllTextFromNode` changes a text without U+00A0 by
whitespace only. -/
theorem sanitizeText_spaceVariant (x : Str) :
    SpaceVariant (ReplaceAll x (Char.ofNat 0xA0) " ".toList) (sanitizeText x) := by
  unfold sanitizeText Trim regexpSpacesReplaceAllString
  simp only []
  have h1 := (replaceSpaceRunsFrom_spaceVariant
    (ReplaceAll x (Char.ofNat 0xA0) " ".toList) []).1
  simp only [List.nil_append] at h1
  exact (h1.symm.trans (dropWhile_space_spaceVariant _)).trans (rdropWhile_space_spaceVariant _)

/-- With U+00A0 replaced by a space, two variants are variants without U+00A0 in
the place of a space. -/
theorem CellTextVariant_ReplaceAll {s t : Str} (h : CellTextVariant true s t) :
    CellTextVariant false (ReplaceAll s (Char.ofNat 0xA0) " ".toList)
      (ReplaceAll t (Char.ofNat 0xA0) " ".toList) := by
  have hone : ∀ c : Char, c ≠ Char.ofNat 0xA0 → ∀ r : Str,
      ReplaceAll (c :: r) (Char.ofNat 0xA0) " ".toList =
        c :: ReplaceAll r (Char.ofNat 0xA0) " ".toList := by
    intro c hc r
    simp [ReplaceAll, hc]
  have hnb : ∀ r : Str, ReplaceAll (Char.ofNat 0xA0 :: r) (Char.ofNat 0xA0) " ".toList =
      ' ' :: ReplaceAll r (Char.ofNat 0xA0) " ".toList := by
    intro r
    simp [ReplaceAll]
  have hend : ∀ (r : Str) (c : Char), c ≠ Char.ofNat 0xA0 →
      ReplaceAll (r ++ [c]) (Char.ofNat 0xA0) " ".toList =
        ReplaceAll r (Char.ofNat 0xA0) " ".toList ++ [c] := by
    intro r c hc
    rw [ReplaceAll_append, hone c hc]
    rfl
  induction h with
  | repeatedSpace a b =>
    rw [ReplaceAll_append, ReplaceAll_append, hone ' ' (by decide), hone ' ' (by decide),
      hone ' ' (by decide)]
    exact CellTextVariant.repeatedSpace _ _
  | nonBreakingSpace a b _ =>
    rw [ReplaceAll_append, ReplaceAll_append, hone ' ' (by decide), hnb]
    exact CellTextVariant.refl _
  | leadingSpace s =>
    rw [hone ' ' (by decide)]
    exact CellTextVariant.leadingSpace _
  | trailingSpace s =>
    rw [hend s ' ' (by decide)]
    exact CellTextVariant.trailingSpace _
  | parentheses a s b =>
    have e : a ++ '(' :: s ++ ')' :: b = a ++ '(' :: (s ++ ')' :: b) := by simp
    rw [e, ReplaceAll_append, ReplaceAll_append, ReplaceAll_append, hone '(' (by decide),
      ReplaceAll_append, hone ')' (by decide)]
    have := @CellTextVariant.parentheses false
      (ReplaceAll a (Char.ofNat 0xA0) " ".toList) (ReplaceAll s (Char.ofNat 0xA0) " ".toList)
      (ReplaceAll b (Char.ofNat 0xA0) " ".toList)
    simpa using this
  | asterisks a s b =>
    have e : a ++ '*' :: s ++ '*' :: b = a ++ '*' :: (s ++ '*' :: b) := by simp
    rw [e, ReplaceAll_append, ReplaceAll_append, ReplaceAll_append, hone '*' (by decide),
      ReplaceAll_append, hone '*' (by decide)]
    have := @CellTextVariant.asterisks false
      (ReplaceAll a (Char.ofNat 0xA0) " ".toList) (ReplaceAll s (Char.ofNat 0xA0) " ".toList)
      (ReplaceAll b (Char.ofNat 0xA0) " ".toList)
    simpa using this
  | refl s => exact CellTextVariant.refl _
  | symm _ ih => exact ih.symm
  | trans _ _ ih1 ih2 => exact ih1.trans ih2

theorem ReplaceAll_of_not_mem (s : Str) (old : Char) (new : Str) (h : old ∉ s) :
    ReplaceAll s old new = s := by
  induction s with
  | nil => rfl
  | cons c cs ih =>
    have hc : c ≠ old := fun e => h (by rw [e]; exact List.mem_cons_self _ _)
    have hcs : old ∉ cs := fun hm => h (List.mem_cons_of_mem _ hm)
    have e : ReplaceAll (c :: cs) old new = c :: ReplaceAll cs old new := by
      simp [ReplaceAll, hc]
    rw [e, ih hcs]

/-- The text `getAllTextFromNode` returns for a cell that holds the text `s`. -/
theorem getAllTextFromNode_cellOfText (s : Str) :
    getAllTextFromNode (some (cellOfText s)) = sanitizeText s := by
  have hsp : isSeparator ' ' = true := by decide
  have e : spaced (textsOf (cellOfText s)) = ' ' :: s := by
    simp [cellOfText, textsOf, textsOfAll, spaced]
  rw [getAllTextFromNode, getAllTextFromNonNil_eq_streamNormal, e, streamNormal, if_pos hsp,
    streamNormal_unstarted, sanitizeText_eq_streamNormal]

/-- C3. `parseInterestRatesFromCellText` is invariant under whitespace normalisation
and decoration.  For two cell texts that differ only by repeated spaces, U+00A0 in
the place of a space, a space in front or at the end, or parentheses and asterisks
put around a part of the text: (1) on the texts of the two cells as the function is
called with them, the text of `getAllTextFromNode` (line 102), both calls return an
error or both return the same pair of rates; (2) the same holds for the two texts
handed to the function as they are, when neither holds U+00A0, which no text of
`getAllTextFromNode` does. -/
theorem parseInterestRatesFromCellText_invariant (ParseFloat : Str → Option Float32)
    {s t : Str} (h : CellTextVariant true s t) :
    cellOutcome (parseInterestRatesFromCellText ParseFloat
        (getAllTextFromNode (some (cellOfText s)))) =
      cellOutcome (parseInterestRatesFromCellText ParseFloat
        (getAllTextFromNode (some (cellOfText t)))) ∧
    (Char.ofNat 0xA0 ∉ s → Char.ofNat 0xA0 ∉ t →
      cellOutcome (parseInterestRatesFromCellText ParseFloat s) =
        cellOutcome (parseInterestRatesFromCellText ParseFloat t)) := by
  have key := firstPart_variant (CellTextVariant_ReplaceAll h)
  constructor
  · rw [getAllTextFromNode_cellOfText, getAllTextFromNode_cellOfText,
      parseInterestRatesFromCellText_outcome, parseInterestRatesFromCellText_outcome,
      ← firstPart_spaceVariant (sanitizeText_spaceVariant s),
      ← firstPart_spaceVariant (sanitizeText_spaceVariant t), key]
  · intro hs ht
    rw [ReplaceAll_of_not_mem _ _ _ hs, ReplaceAll_of_not_mem _ _ _ ht] at key
    rw [parseInterestRatesFromCellText_outcome, parseInterestRatesFromCellText_outcome, key]

/-- C3, witness: the cells with `3,45 3,51` and with U+00A0 in the place of its
space both give rates, the same ones; so do the texts `3,45 %` and ` (3,45  %)`
handed to the function as they are. -/
theorem parseInterestRatesFromCellText_invariant_witness :
    (CellTextVariant true ("3,45".toList ++ ' ' :: "3,51".toList)
        ("3,45".toList ++ Char.ofNat 0xA0 :: "3,51".toList) ∧
      outcomeFailed (cellOutcome (parseInterestRatesFromCellText parseDecimal
        (getAllTextFromNode (some (cellOfText
          ("3,45".toList ++ Char.ofNat 0xA0 :: "3,51".toList)))))) = false ∧
      cellOutcome (parseInterestRatesFromCellText parseDecimal
          (getAllTextFromNode (some (cellOfText ("3,45".toList ++ ' ' :: "3,51".toList))))) =
        cellOutcome (parseInterestRatesFromCellText parseDecimal
          (getAllTextFromNode (some (cellOfText
            ("3,45".toList ++ Char.ofNat 0xA0 :: "3,51".toList)))))) ∧
    (CellTextVariant true "3,45 %".toList " (3,45  %)".toList ∧
      Char.ofNat 0xA0 ∉ "3,45 %".toList ∧ Char.ofNat 0xA0 ∉ " (3,45  %)".toList ∧
      outcomeFailed (cellOutcome (parseInterestRatesFromCellText parseDecimal
        " (3,45  %)".toList)) = false ∧
      cellOutcome (parseInterestRatesFromCellText parseDecimal "3,45 %".toList) =
        cellOutcome (parseInterestRatesFromCellText parseDecimal " (3,45  %)".toList)) :=
  have hn : CellTextVariant true ("3,45".toList ++ ' ' :: "3,51".toList)
      ("3,45".toList ++ Char.ofNat 0xA0 :: "3,51".toList) :=
    CellTextVariant.nonBreakingSpace _ _ rfl
  have hv : CellTextVariant true "3,45 %".toList " (3,45  %)".toList :=
    ((CellTextVariant.repeatedSpace "3,45".toList "%".toList).trans
      (CellTextVariant.parentheses [] "3,45  %".toList [])).trans
      (CellTextVariant.leadingSpace "(3,45  %)".toList)
  ⟨⟨hn, by decide, (parseInterestRatesFromCellText_invariant parseDecimal hn).1⟩,
    ⟨hv, by decide, by decide, by decide,
      (parseInterestRatesFromCellText_invariant parseDecimal hv).2 (by decide) (by decide)⟩⟩

end Bolan
